import Mathlib

/-!
Verification of the expression translator of `gorm-odata-filtering`
(`gorm-odata.go`, `invalid-query-error.go`) against its specification.

The embedding models the abstract syntax tree handed to the emitter by the
external `go-syntax-tree` parser as an inductive tree.  The Go nodes carry a
unique integer `Id` and a `Parent` back-pointer; in the embedding a node is
identified by its position in the tree (the list of left/right steps from the
node up to the root), which is faithful exactly because ids are unique, and the
parent of a node is the position with the first step removed.  The two
imperative loops of the source (`validateQuery` and `buildUnaryFuncChain`),
which walk these parent links with a visited-id set, are embedded as explicit
step functions driven by a fuel-bounded runner; the fuel is an artifact of
totalization and theorems below show it is never exhausted on the relevant
inputs.  Strings are manipulated through their underlying character lists so
that the Go `strings` helpers have transparent definitions.
-/

set_option maxHeartbeats 1000000

namespace gormodata

/-- Node kinds of the external syntax-tree library (`syntaxtree.NodeType`).
Binary operators, binary functions (`concat`, `contains`, ...) and logical
connectives all carry kind `Operator`; unary functions carry
`UnaryOperator`. -/
inductive NodeType where
  | Operator
  | UnaryOperator
  | LeftOperand
  | RightOperand
deriving DecidableEq, Repr

/-- A syntax-tree node (`syntaxtree.Node`): kind, textual value, and optional
children.  The Go struct also carries `Id` and `Parent`; ids are modelled by
tree positions (see `Pos`) and the parent link by dropping the head of a
position. -/
inductive Node where
  | node (type : NodeType) (value : String) (left : Option Node) (right : Option Node)

/-- The kind of a node. -/
def Node.type : Node → NodeType
  | .node ty _ _ _ => ty

/-- The textual value of a node. -/
def Node.value : Node → String
  | .node _ v _ _ => v

/-- The left child of a node (`Node.LeftChild`). -/
def Node.left : Node → Option Node
  | .node _ _ l _ => l

/-- The right child of a node (`Node.RightChild`). -/
def Node.right : Node → Option Node
  | .node _ _ _ r => r

/-- Number of nodes of a tree. -/
def Node.size : Node → Nat
  | .node _ _ l r =>
      1 + (match l with | some lt => lt.size | none => 0)
        + (match r with | some rt => rt.size | none => 0)

/-- One step from a node to one of its children. -/
inductive Dir where
  | L
  | R
deriving DecidableEq, Repr

/-- A position inside a tree, written from the node UP to the root: the head
is the step from the node's parent down to the node, and `[]` is the root.
Positions play the role of the unique node ids of the Go library. -/
abbrev Pos := List Dir

/-- The child of a node in the given direction. -/
def childOf (d : Dir) (n : Node) : Option Node :=
  match d with
  | .L => n.left
  | .R => n.right

/-- The node sitting at a position of the tree (if any). -/
def nodeAt (t : Node) : Pos → Option Node
  | [] => some t
  | d :: tl => (nodeAt t tl).bind (childOf d)

/-- The value of the parent of the node at a position (`Node.Parent.Value`);
`none` at the root, whose parent pointer is nil. -/
def parentValueAt (t : Node) : Pos → Option String
  | [] => none
  | _ :: tl => (nodeAt t tl).map Node.value

/- ### String helpers mirroring the Go `strings` / `strconv` functions -/

/-- `strings.Contains(s, c)` for a single-character needle. -/
def strHasChar (s : String) (c : Char) : Bool :=
  s.data.contains c

/-- `strings.ReplaceAll(s, string(c), "")`: remove every occurrence of a
character. -/
def removeAll (c : Char) (s : String) : String :=
  ⟨s.data.filter (fun a => a ≠ c)⟩

/-- Character-list kernel of `escPercent`. -/
def escPercentList : List Char → List Char
  | [] => []
  | a :: rest => (if a = '%' then ['\\', '%'] else [a]) ++ escPercentList rest

/-- `strings.ReplaceAll(s, "%", "\\%")`. -/
def escPercent (s : String) : String :=
  ⟨escPercentList s.data⟩

/-- Character-list kernel of `sprintf1`. -/
def sprintf1List (arg : List Char) : List Char → List Char
  | [] => []
  | a :: rest =>
      if a = '%' ∧ rest.head? = some 's' then arg ++ rest.tail
      else a :: sprintf1List arg rest

/-- `fmt.Sprintf(tmpl, arg)` for a template containing a single `%s` verb:
the first `%s` is replaced by `arg`, everything else is copied. -/
def sprintf1 (tmpl : String) (arg : String) : String :=
  ⟨sprintf1List arg.data tmpl.data⟩

/-- Character-list kernel of `expandDollarOne`. -/
def expandDollarOneList (grp : List Char) : List Char → List Char
  | [] => []
  | a :: rest =>
      if a = '$' ∧ rest.head? = some '1' then grp ++ expandDollarOneList grp rest.tail
      else a :: expandDollarOneList grp rest
termination_by l => l.length
decreasing_by
  all_goals simp [List.length_tail]
  omega

/-- Expansion of a `regexp` replacement template: every `$1` is replaced by
the captured group. -/
def expandDollarOne (tmpl : String) (grp : String) : String :=
  ⟨expandDollarOneList grp.data tmpl.data⟩

/-- Character-list kernel of `splitOnSlash` (`strings.Split` with a
one-character separator). -/
def splitCharList (c : Char) : List Char → List (List Char)
  | [] => [[]]
  | a :: rest =>
      match splitCharList c rest with
      | r :: rs => if a = c then [] :: r :: rs else (a :: r) :: rs
      | [] => [[]]

/-- `strings.Split(s, "/")`. -/
def splitOnSlash (s : String) : List String :=
  (splitCharList '/' s.data).map (fun l => ⟨l⟩)

/-- `strconv.Atoi`: an optional sign followed by at least one decimal digit,
with the Go 64-bit `int` range check — a value above `2^63 - 1` (or below
`-2^63`) makes `Atoi` return `ErrRange` and the caller take the string
branch. -/
def atoiQ (s : String) : Option Int :=
  match s.data with
  | [] => none
  | c :: rest =>
      let signed : Bool × List Char :=
        if c = '-' then (true, rest) else if c = '+' then (false, rest) else (false, c :: rest)
      match signed with
      | (neg, digits) =>
          if digits = [] then none
          else if digits.all Char.isDigit then
            let n : Nat := digits.foldl (fun acc d => acc * 10 + (d.toNat - ('0').toNat)) 0
            if neg then
              if n ≤ 9223372036854775808 then some (-(n : Int)) else none
            else
              if n ≤ 9223372036854775807 then some (n : Int) else none
          else none

/-- Lookup in an association list with the zero-value default of a Go
`map[string]string`. -/
def lookupD (m : List (String × String)) (k : String) : String :=
  match m.lookup k with
  | some v => v
  | none => ""

/- ### The static translation tables of `gorm-odata.go` -/

/-- Supported database dialects (`DbType`). -/
inductive DbType where
  | PostgreSQL
  | MySQL
  | SQLite
  | SQLServer
deriving DecidableEq, Repr

/-- `operatorTranslation`. -/
def operatorTranslation : List (String × String) :=
  [("eq", "="), ("ne", "!="), ("lt", "<"), ("le", "<="), ("gt", ">"), ("ge", ">="),
   ("contains", "~"), ("startswith", "~"), ("endswith", "~")]

/-- `operatorTranslationReversed`. -/
def operatorTranslationReversed : List (String × String) :=
  [("eq", "!="), ("ne", "="), ("lt", ">="), ("le", ">"), ("gt", "<="), ("ge", "<"),
   ("contains", "!~"), ("startswith", "!~"), ("endswith", "!~")]

/-- The initial value of the package global `gormqonvertTranslation`. -/
def gormqonvertTranslation : List (String × String) :=
  [("eq", "="), ("ne", "!="), ("lt", "<"), ("le", "<="), ("gt", ">"), ("ge", ">="),
   ("contains", "~"), ("startswith", "~"), ("endswith", "~")]

/-- The initial value of the package global `gormqonvertTranslationReversed`. -/
def gormqonvertTranslationReversed : List (String × String) :=
  [("eq", "!="), ("ne", "="), ("lt", ">="), ("le", ">"), ("gt", "<="), ("ge", "<"),
   ("contains", "!~"), ("startswith", "!~"), ("endswith", "!~")]

/-- `unaryFunctionTranslation`: the per-dialect rendering table for unary SQL
functions.  Entries containing a `%s` verb are format templates. -/
def unaryFunctionTranslation (databaseType : DbType) : List (String × String) :=
  match databaseType with
  | .PostgreSQL =>
      [("length", "LENGTH"), ("indexof", "POSITION"), ("tolower", "LOWER"),
       ("toupper", "UPPER"), ("trim", "TRIM"),
       ("year", "EXTRACT(YEAR FROM %s)"), ("month", "EXTRACT(MONTH FROM %s)"),
       ("day", "EXTRACT(DAY FROM %s)"), ("hour", "EXTRACT(HOUR FROM %s)"),
       ("minute", "EXTRACT(MINUTE FROM %s)"), ("second", "EXTRACT(SECOND FROM %s)"),
       ("fractionalsecond", "EXTRACT(MICROSECOND FROM %s)"),
       ("date", "TO_DATE"), ("time", "CAST(%s::timestamp AS time)"),
       ("now", "NOW"), ("round", "ROUND"), ("floor", "FLOOR"), ("ceiling", "CEIL")]
  | .MySQL =>
      [("length", "LENGTH"), ("indexof", "LOCATE"), ("tolower", "LOWER"),
       ("toupper", "UPPER"), ("trim", "TRIM"),
       ("year", "YEAR"), ("month", "MONTH"), ("day", "DAY"), ("hour", "HOUR"),
       ("minute", "MINUTE"), ("second", "SECOND"), ("fractionalsecond", "MICROSECOND"),
       ("date", "DATE"), ("time", "TIME"),
       ("now", "NOW"), ("round", "ROUND"), ("floor", "FLOOR"), ("ceiling", "CEIL")]
  | .SQLite =>
      [("length", "LENGTH"), ("indexof", "LOCATE"), ("tolower", "LOWER"),
       ("toupper", "UPPER"), ("trim", "TRIM"),
       ("year", "YEAR"), ("month", "MONTH"), ("day", "DAY"), ("hour", "HOUR"),
       ("minute", "MINUTE"), ("second", "SECOND"), ("fractionalsecond", "MICROSECOND"),
       ("date", "DATE"), ("time", "TIME"),
       ("now", "NOW"), ("round", "ROUND"), ("floor", "FLOOR"), ("ceiling", "CEIL")]
  | .SQLServer =>
      [("length", "LENGTH"), ("indexof", "LOCATE"), ("tolower", "LOWER"),
       ("toupper", "UPPER"), ("trim", "TRIM"),
       ("year", "YEAR"), ("month", "MONTH"), ("day", "DAY"), ("hour", "HOUR"),
       ("minute", "MINUTE"), ("second", "SECOND"), ("fractionalsecond", "MICROSECOND"),
       ("date", "DATE"), ("time", "TIME"),
       ("now", "NOW"), ("round", "ROUND"), ("floor", "FLOOR"), ("ceiling", "CEIL")]

/- ### Generic fuel-bounded loop runner -/

/-- One outcome of a loop step: either the next state or an exit value. -/
def iterRun {σ ρ : Type} (f : σ → σ ⊕ ρ) : Nat → σ → Option ρ
  | 0, _ => none
  | fuel + 1, s =>
      match f s with
      | .inr r => some r
      | .inl s2 => iterRun f fuel s2

/-- `IterSteps f s n s2`: the loop advances from state `s` to state `s2` in
exactly `n` non-exiting steps. -/
inductive IterSteps {σ ρ : Type} (f : σ → σ ⊕ ρ) : σ → Nat → σ → Prop where
  | refl (s : σ) : IterSteps f s 0 s
  | step (s s2 s3 : σ) (n : Nat) : f s = .inl s2 → IterSteps f s2 n s3 →
      IterSteps f s (n + 1) s3

theorem iterRun_of_steps {σ ρ : Type} {f : σ → σ ⊕ ρ} {s s2 : σ} {n : Nat}
    (h : IterSteps f s n s2) : ∀ m, iterRun f (n + m) s = iterRun f m s2 := by
  induction h with
  | refl s => intro m; rw [Nat.zero_add]
  | step s s2 s3 n hstep _ ih =>
      intro m
      have : n + 1 + m = (n + m) + 1 := by omega
      rw [this]
      simp only [iterRun, hstep]
      exact ih m

theorem IterSteps.trans {σ ρ : Type} {f : σ → σ ⊕ ρ} {s1 s2 s3 : σ} {n m : Nat}
    (h1 : IterSteps f s1 n s2) (h2 : IterSteps f s2 m s3) :
    IterSteps f s1 (n + m) s3 := by
  induction h1 with
  | refl s => simpa using h2
  | step s s' s'' n hstep _ ih =>
      have : n + 1 + m = (n + m) + 1 := by omega
      rw [this]
      exact IterSteps.step _ _ _ _ hstep (ih h2)

/- ### `buildUnaryFuncChain` (the ascend-and-wrap loop) -/

/-- Loop state of `buildUnaryFuncChain`: the position of `root` inside the
subtree originally passed in, the set of visited node ids (`nodesVisited`),
and the accumulated `result` string. -/
structure UfcState where
  rpos : Pos
  visited : List Pos
  result : String

/-- The value of the left child of a node (`root.LeftChild.Value`); the Go
code dereferences a nil pointer when the left child is missing, which cannot
happen on parser output, so the embedding defaults to `""` there. -/
def leftChildValue (n : Node) : String :=
  match n.left with
  | some l => l.value
  | none => ""

/-- Whether the left child exists, is a `UnaryOperator`, and its id is not
yet visited (the descend condition of the loop). -/
def ufcDescend (n : Node) (s : UfcState) : Bool :=
  match n.left with
  | some l => decide (l.type = NodeType.UnaryOperator) && !(decide ((Dir.L :: s.rpos) ∈ s.visited))
  | none => false

/-- One iteration of the `buildUnaryFuncChain` loop.  The Go loop, when the
current node is the originally passed subtree root, moves on to that node's
parent in the full tree; at every call site that parent is an `Operator`
(a comparison, string predicate or `concat` node), so the loop then exits with
the same result.  The embedding stays at the subtree root instead and exits on
the next iteration through the visited check, producing the same result. -/
def ufcStep (databaseType : DbType) (columnTranslation : String → String) (t : Node)
    (s : UfcState) : UfcState ⊕ String :=
  match nodeAt t s.rpos with
  | none => .inr s.result
  | some n =>
      if s.rpos ∈ s.visited then .inr s.result
      else if n.type = NodeType.UnaryOperator then
        if ufcDescend n s then .inl ⟨Dir.L :: s.rpos, s.visited, s.result⟩
        else
          let visited2 := s.rpos :: s.visited
          let trans := lookupD (unaryFunctionTranslation databaseType) n.value
          let result2 :=
            if s.result = "" then
              if strHasChar trans '%' then sprintf1 trans (columnTranslation (leftChildValue n))
              else trans ++ "(" ++ columnTranslation (leftChildValue n) ++ ")"
            else trans ++ "(" ++ s.result ++ ")"
          match s.rpos with
          | [] => .inl ⟨[], visited2, result2⟩
          | _ :: tl => .inl ⟨tl, visited2, result2⟩
      else .inr s.result

/-- `buildUnaryFuncChain`: render a (possibly nested) unary-function chain by
walking to the deepest unary node and ascending, wrapping the running string.
The fuel `2 * size + 2` is an artifact of totalization; the loop provably
exits within it on unary chains. -/
def buildUnaryFuncChain (databaseType : DbType) (columnTranslation : String → String)
    (root : Node) : String :=
  match iterRun (ufcStep databaseType columnTranslation root) (2 * root.size + 2) ⟨[], [], ""⟩ with
  | some r => r
  | none => ""

/- ### `buildConcat` -/

/-- `buildConcat`: render a `concat` tree by joining children with ` || `.
Literal children (containing a quote) are carried as-is, other operand
children go through the naming strategy, unary children through
`buildUnaryFuncChain`.  The sequence of non-exclusive `if` statements of the
Go function is mirrored by the overriding lets; missing children (a nil
dereference in Go, impossible on parser output) render as `""`. -/
def buildConcat (databaseType : DbType) (columnTranslation : String → String) :
    Node → String
  | .node ty v l r =>
      let result := ""
      let result :=
        if v = "concat" then
          (match l with
           | some lc => buildConcat databaseType columnTranslation lc
           | none => "") ++ " || " ++
          (match r with
           | some rc => buildConcat databaseType columnTranslation rc
           | none => "")
        else result
      let result :=
        if ty = NodeType.UnaryOperator then
          buildUnaryFuncChain databaseType columnTranslation (.node ty v l r)
        else result
      if ty = NodeType.LeftOperand ∨ ty = NodeType.RightOperand then
        if strHasChar v '\'' then v else columnTranslation v
      else result

/- ### The query-builder model and the emitter `buildGormQuery` -/

/-- A bound parameter value: gorm receives either the parsed `int` or the
processed string. -/
inductive GVal where
  | gint (n : Int)
  | gstr (s : String)
deriving DecidableEq, Repr

/-- A value of the nested filter map handed to `Where(map)`: either a string
leaf or a nested map (`map[string]any`). -/
inductive FVal where
  | str (s : String)
  | fmap (m : List (String × FVal))

/-- A condition accumulated on the query builder.  `frag` is a
`Where(sql, arg)` call with its single bound parameter, `cmap` a `Where(map)`
call, and `cand`/`cor` record how `Where`/`Or` combined sub-conditions. -/
inductive Cond where
  | frag (sql : String) (arg : GVal)
  | cmap (m : List (String × FVal))
  | cand (a b : Cond)
  | cor (a b : Cond)

/-- The state of a query builder: `none` models a fresh session with no
conditions attached (`db.Session(&gorm.Session{NewDB: true})`). -/
abbrev Builder := Option Cond

/-- `db.Where(x)`: attach a condition, AND-combined with what is already
there.  Attaching an empty sub-builder is a no-op. -/
def whereC (db : Builder) (c : Builder) : Builder :=
  match c with
  | none => db
  | some c2 =>
      match db with
      | none => some c2
      | some a => some (.cand a c2)

/-- `db.Or(x)`: attach a condition OR-combined with what is already there. -/
def orC (db : Builder) (c : Builder) : Builder :=
  match c with
  | none => db
  | some c2 =>
      match db with
      | none => some c2
      | some a => some (.cor a c2)

/-- The computation of `queryLeftOperandString`, the sequence of three
non-exclusive `if` statements duplicated in the comparison and in the string
predicate branch of `buildGormQuery`. -/
def emitLeftOperand (databaseType : DbType) (columnTranslation : String → String)
    (leftChild : Node) : String :=
  let s := ""
  let s :=
    if leftChild.type = NodeType.UnaryOperator then
      buildUnaryFuncChain databaseType columnTranslation leftChild
    else s
  let s :=
    if leftChild.value = "concat" then
      buildConcat databaseType columnTranslation leftChild
    else s
  if leftChild.type = NodeType.LeftOperand then columnTranslation leftChild.value else s

/-- The nested filter map built by the `strings.Split` loops of
`buildGormQuery`: one singleton map level per non-final path segment, the
leaf string at the bottom, every segment through the naming strategy.  The Go
loop computes the leaf value at the last iteration; here it is passed in. -/
def buildNestedMap (columnTranslation : String → String) (leaf : String) :
    List String → List (String × FVal)
  | [] => []
  | [field] => [(columnTranslation field, .str leaf)]
  | field :: rest =>
      [(columnTranslation field, .fmap (buildNestedMap columnTranslation leaf rest))]

/-- `rightOperandTranslation`: the `regexp` replacement templates of the
string-predicate branch. -/
def rightOperandTranslation : List (String × String) :=
  [("contains", "%$1%"), ("startswith", "$1%"), ("endswith", "%$1")]

/-- The first index of a character in a list, or none. -/
def firstIdxOf (c : Char) (l : List Char) : Option Nat :=
  l.findIdx? (fun a => a = c)

/-- One newline-free segment of `ReplaceAllString` with the pattern
`'(.*)'`: within such a segment the unique leftmost greedy match runs from
the segment's first quote to its last quote (the remainder then holds no
further quote), and the replacement expands `$1` to the captured middle; a
segment without two distinct quotes has no match and is kept unchanged. -/
def regexQuoteReplaceLine (tmpl : String) (cs : List Char) : List Char :=
  match firstIdxOf '\'' cs, firstIdxOf '\'' cs.reverse with
  | some i, some jr =>
      let j := cs.length - 1 - jr
      if i < j then
        cs.take i ++ (expandDollarOne tmpl ⟨(cs.drop (i + 1)).take (j - i - 1)⟩).data
          ++ cs.drop (j + 1)
      else cs
  | _, _ => cs

/-- `regexp.MustCompile("'(.*)'").ReplaceAllString(s, tmpl)`: RE2's `.` does
not match a newline, so no match spans a `'\n'`; the replacement therefore
acts independently on each newline-delimited segment of `s`. -/
def regexQuoteReplace (tmpl : String) (s : String) : String :=
  ⟨List.intercalate ['\n'] ((splitCharList '\n' s.data).map (regexQuoteReplaceLine tmpl))⟩

/-- The error messages of the emitter (`InvalidQueryError.Msg`; the public
error string is `"invalid query: " ++ msg`, see `invalid-query-error.go`). -/
def msgUnaryRight : String := "unary operators not supported as right operand of equality operators"

/-- `concat` rejected as right operand. -/
def msgConcatRight : String := "concat not supported as right operand of equality operators"

/-- Unsupported unary operator at the root. -/
def msgRootUnary : String := "root level operators other then 'not' are not supported"

/-- Unknown node kind at the root of a subexpression. -/
def msgUnknownType : String := "unknown query type"

/-- `buildGormQuery`.  The result is the updated builder together with the
returned error (`none` on success).  `gormqonvertTranslationRevG` stands for
the package global `gormqonvertTranslationReversed` read by the `not` branch
(possibly rewritten by `checkDbPlugins`); the never-mutated global
`operatorTranslationReversed` is referenced directly.  In the `and`/`or`
branches the Go code passes the `(db, error)` pair returned by the recursive
call directly as the arguments of `Where`/`Or`, so the child's error is not
inspected and the branch falls through to `return db, nil`; the embedding
mirrors this by dropping the child's error component.  Missing children of
comparison nodes would be nil dereferences in Go and are mapped to a no-op
here; parser output always carries both children. -/
def buildGormQuery (root : Node) (db : Builder) (databaseType : DbType)
    (opTranslation : List (String × String)) (gqTranslation : List (String × String))
    (gormqonvertTranslationRevG : List (String × String))
    (columnTranslation : String → String) (notEnabled : Bool) : Builder × Option String :=
  match root with
  | .node ty v l r =>
    match ty with
    | NodeType.Operator =>
        if v = "and" then
          match l, r with
          | some lc, some rc =>
              let cleanDB : Builder := none
              let lres := buildGormQuery lc cleanDB databaseType opTranslation gqTranslation
                gormqonvertTranslationRevG columnTranslation notEnabled
              let rres := buildGormQuery rc cleanDB databaseType opTranslation gqTranslation
                gormqonvertTranslationRevG columnTranslation notEnabled
              if notEnabled then (orC (whereC db lres.1) rres.1, none)
              else (whereC (whereC db lres.1) rres.1, none)
          | _, _ => (db, none)
        else if v = "or" then
          match l, r with
          | some lc, some rc =>
              let cleanDB : Builder := none
              let lres := buildGormQuery lc cleanDB databaseType opTranslation gqTranslation
                gormqonvertTranslationRevG columnTranslation notEnabled
              let rres := buildGormQuery rc cleanDB databaseType opTranslation gqTranslation
                gormqonvertTranslationRevG columnTranslation notEnabled
              if notEnabled then (whereC (whereC db lres.1) rres.1, none)
              else (orC (whereC db lres.1) rres.1, none)
          | _, _ => (db, none)
        else if v = "eq" ∨ v = "ne" ∨ v = "lt" ∨ v = "le" ∨ v = "gt" ∨ v = "ge" then
          match l, r with
          | some leftChild, some rightChild =>
              let queryLeftOperandString := emitLeftOperand databaseType columnTranslation leftChild
              if rightChild.type = NodeType.UnaryOperator then (db, some msgUnaryRight)
              else if rightChild.value = "concat" then (db, some msgConcatRight)
              else
                let queryRightOperandString :=
                  if rightChild.type = NodeType.RightOperand then removeAll '\'' rightChild.value
                  else ""
                if strHasChar leftChild.value '/' then
                  let queryRightOperandString := removeAll '\'' queryRightOperandString
                  let fieldSplit := splitOnSlash leftChild.value
                  let leaf :=
                    if v ≠ "eq" then lookupD gqTranslation v ++ queryRightOperandString
                    else queryRightOperandString
                  (whereC db (some (.cmap (buildNestedMap columnTranslation leaf fieldSplit))), none)
                else
                  let queryString := queryLeftOperandString ++ " " ++ lookupD opTranslation v ++ " ?"
                  match atoiQ queryRightOperandString with
                  | some queryRightOperandInt =>
                      (whereC db (some (.frag queryString (.gint queryRightOperandInt))), none)
                  | none =>
                      (whereC db (some (.frag queryString (.gstr queryRightOperandString))), none)
          | _, _ => (db, none)
        else if v = "contains" ∨ v = "startswith" ∨ v = "endswith" then
          match l, r with
          | some leftChild, some rightChild =>
              let queryLeftOperandString := emitLeftOperand databaseType columnTranslation leftChild
              let queryRightOperandString := rightChild.value
              let escaped : String × Bool :=
                if strHasChar queryRightOperandString '%' then
                  (escPercent queryRightOperandString, true)
                else (queryRightOperandString, false)
              let escapeContains := escaped.2
              let queryRightOperandString :=
                regexQuoteReplace (lookupD rightOperandTranslation v) escaped.1
              if strHasChar leftChild.value '/' then
                let queryRightOperandString := removeAll '\'' queryRightOperandString
                let fieldSplit := splitOnSlash leftChild.value
                let leaf := lookupD gqTranslation v ++ queryRightOperandString
                (whereC db (some (.cmap (buildNestedMap columnTranslation leaf fieldSplit))), none)
              else
                let replacementString := if notEnabled then "%s NOT LIKE ?" else "%s LIKE ?"
                let replacementString :=
                  if escapeContains then replacementString ++ " ESCAPE '\\'" else replacementString
                let queryString := sprintf1 replacementString queryLeftOperandString
                (whereC db (some (.frag queryString (.gstr queryRightOperandString))), none)
          | _, _ => (db, none)
        else (db, none)
    | NodeType.UnaryOperator =>
        if v ≠ "not" then (db, some msgRootUnary)
        else
          match l with
          | some lc =>
              let res := buildGormQuery lc db databaseType operatorTranslationReversed
                gormqonvertTranslationRevG gormqonvertTranslationRevG columnTranslation true
              (res.1, res.2)
          | none => (db, none)
    | _ => (db, some msgUnknownType)

/- ### `validateQuery` (the depth-tracking traversal loop) -/

/-- The depth-exceeded message (`maximum query complexity exceeded`). -/
def depthMsg (depth maxTreeDepth : Int) : String :=
  "maximum query complexity exceeded: " ++ toString depth ++ " > " ++ toString maxTreeDepth

/-- The unknown-column message. -/
def colMsg (columnName : String) : String :=
  "unknown column name '" ++ columnName ++ "'"

/-- The column a `LeftOperand` resolves to: the naming strategy applied to the
value, then (when the result still contains `/`) its leftmost segment. -/
def resolveColumn (nameOf : String → String) (v : String) : String :=
  let columnName := nameOf v
  if strHasChar columnName '/' then
    match splitOnSlash columnName with
    | s :: _ => s
    | [] => columnName
  else columnName

/-- Loop state of `validateQuery`: the position of `currentNode`, the tracked
`depth`, and the visited-id set. -/
structure VState where
  rpos : Pos
  depth : Int
  visited : List Pos

/-- One iteration of the `validateQuery` loop.  The exit value is the
returned error message (`none` for a nil error).  At a root `LeftOperand`
the Go code would dereference a nil parent pointer; such trees never reach
the validator (the parser rejects a bare operand), and the embedding treats
the missing parent as simply not being `concat`. -/
def valStep (t : Node) (maxTreeDepth : Int) (columnNamesList : List String)
    (nameOf : String → String) (s : VState) : VState ⊕ Option String :=
  match nodeAt t s.rpos with
  | none => .inr none
  | some n =>
      if s.rpos ∈ s.visited then .inr none
      else if maxTreeDepth > 0 ∧ s.depth > maxTreeDepth then
        .inr (some (depthMsg s.depth maxTreeDepth))
      else if (n.type = NodeType.Operator ∨ n.type = NodeType.UnaryOperator) ∧
          n.left.isSome ∧ ¬ (Dir.L :: s.rpos) ∈ s.visited then
        .inl ⟨Dir.L :: s.rpos, s.depth + 1, s.visited⟩
      else if (n.type = NodeType.Operator ∨ n.type = NodeType.UnaryOperator) ∧
          n.right.isSome ∧ ¬ (Dir.R :: s.rpos) ∈ s.visited then
        .inl ⟨Dir.R :: s.rpos, s.depth + 1, s.visited⟩
      else if n.type = NodeType.LeftOperand ∧ parentValueAt t s.rpos ≠ some "concat" ∧
          ¬ resolveColumn nameOf n.value ∈ columnNamesList then
        .inr (some (colMsg (resolveColumn nameOf n.value)))
      else
        let visited2 := s.rpos :: s.visited
        match s.rpos with
        | [] => .inl ⟨[], s.depth, visited2⟩
        | _ :: tl => .inl ⟨tl, s.depth - 1, visited2⟩

/-- `validateQuery` run on the tree root.  The fuel `2 * size + 2` is an
artifact of totalization; termination within it is proved below. -/
def validateQuery (t : Node) (maxTreeDepth : Int) (columnNamesList : List String)
    (nameOf : String → String) : Option (Option String) :=
  iterRun (valStep t maxTreeDepth columnNamesList nameOf) (2 * t.size + 2) ⟨[], 0, []⟩

/- ### `checkDbPlugins` (plugin bootstrap and prefix-table caching) -/

/-- The `gormqonvert.CharacterConfig` of the prefix-value collaborator.  The
fields are, in the original, `GreaterThanPrefix`, `GreaterOrEqualToPrefix`,
`LessThanPrefix`, `LessOrEqualToPrefix`, `NotEqualToPrefix`, `LikePrefix` and
`NotLikePrefix`. -/
structure CharacterConfig where
  gtPfx : String
  gePfx : String
  ltPfx : String
  lePfx : String
  nePfx : String
  likePfx : String
  notLikePfx : String
deriving DecidableEq, Repr

/-- Update (or insert) a key of an association list, modelling assignment on
a Go map. -/
def setK (m : List (String × String)) (k v : String) : List (String × String) :=
  match m with
  | [] => [(k, v)]
  | (k2, v2) :: rest => if k2 = k then (k, v) :: rest else (k2, v2) :: setK rest k v

/-- The mutable process-wide state touched by `checkDbPlugins`: the
`tsyncmap` cache, the two package-global gormqonvert translation maps, and
which plugins are registered on the builder. -/
structure PluginState where
  cache : List (String × List (String × String))
  gqTrans : List (String × String)
  gqTransRev : List (String × String)
  deepRegistered : Bool
  qonvertRegistered : Bool

/-- The eight assignments of lines 698-705: populate the forward prefix table
from the collaborator's configured tokens. -/
def populateFwd (cfg : CharacterConfig) (m : List (String × String)) :
    List (String × String) :=
  setK (setK (setK (setK (setK (setK (setK (setK m
    "gt" cfg.gtPfx) "ge" cfg.gePfx) "lt" cfg.ltPfx) "le" cfg.lePfx)
    "ne" cfg.nePfx) "contains" cfg.likePfx) "startswith" cfg.likePfx)
    "endswith" cfg.likePfx

/-- The eight assignments of lines 710-717: populate the reversed prefix table
(greater and less swapped, `ne` emptied, not-like for the string
operators). -/
def populateRev (cfg : CharacterConfig) (m : List (String × String)) :
    List (String × String) :=
  setK (setK (setK (setK (setK (setK (setK (setK m
    "gt" cfg.ltPfx) "ge" cfg.lePfx) "lt" cfg.gtPfx) "le" cfg.gePfx)
    "ne" "") "contains" cfg.notLikePfx) "startswith" cfg.notLikePfx)
    "endswith" cfg.notLikePfx

/-- `checkDbPlugins`.  Reflection over the registered collaborator's private
config is modelled by receiving that config as `cfg` (meaningful only when
`qonvertRegistered`).  Plugin registration (`db.Use`) is modelled as always
succeeding. -/
def checkDbPlugins (cfg : CharacterConfig) (st : PluginState) : PluginState :=
  let st := if st.deepRegistered then st else { st with deepRegistered := true }
  if st.qonvertRegistered then
    let fwd : List (String × String) × List (String × List (String × String)) :=
      match st.cache.lookup "gormqonvertTranslation" with
      | none => (populateFwd cfg st.gqTrans, st.cache)
      | some m => (m, st.cache)
    let rev : List (String × String) × List (String × List (String × String)) :=
      match fwd.2.lookup "gormqonvertTranslationReversed" with
      | none =>
          let m := populateRev cfg st.gqTransRev
          (m, ("gormqonvertTranslationReversed", m) :: fwd.2)
      | some m => (m, fwd.2)
    { st with gqTrans := fwd.1, gqTransRev := rev.1, cache := rev.2 }
  else
    { st with
        qonvertRegistered := true,
        cache := ("gormqonvertTranslationReversed", st.gqTransRev) ::
          ("gormqonvertTranslation", st.gqTrans) :: st.cache }

/- ### Specification-side predicates -/

/-- Whether the depth check passes at one node (`maxTreeDepth = 0` disables
the check). -/
def depthOkNode (maxTreeDepth d : Int) : Bool :=
  !(decide (maxTreeDepth > 0)) || decide (d ≤ maxTreeDepth)

/-- Specification of a nil result of `validateQuery`: along the traversal
(children are entered only from `Operator`/`UnaryOperator` nodes) the depth
never exceeds the bound, and every `LeftOperand` whose parent is not `concat`
resolves to a known column. -/
def validOkB (maxTreeDepth : Int) (columnNamesList : List String)
    (nameOf : String → String) : Node → Int → Option String → Bool
  | .node ty v l r, d, pval =>
      depthOkNode maxTreeDepth d &&
      (match ty with
       | NodeType.Operator | NodeType.UnaryOperator =>
           (match l with
            | some lt => validOkB maxTreeDepth columnNamesList nameOf lt (d + 1) (some v)
            | none => true) &&
           (match r with
            | some rt => validOkB maxTreeDepth columnNamesList nameOf rt (d + 1) (some v)
            | none => true)
       | NodeType.LeftOperand =>
           if pval ≠ some "concat" then decide (resolveColumn nameOf v ∈ columnNamesList)
           else true
       | NodeType.RightOperand => true)

/-- Inside-out rendering of a unary-function chain, as the specification
describes it: the innermost function is applied to the (naming-strategy
translated) argument first, and each enclosing function wraps the running
string. -/
def insideOutRender (databaseType : DbType) (columnTranslation : String → String) :
    Node → String
  | .node _ v (some lc) _ =>
      if lc.type = NodeType.UnaryOperator then
        lookupD (unaryFunctionTranslation databaseType) v ++ "(" ++
          insideOutRender databaseType columnTranslation lc ++ ")"
      else
        let trans := lookupD (unaryFunctionTranslation databaseType) v
        if strHasChar trans '%' then sprintf1 trans (columnTranslation lc.value)
        else trans ++ "(" ++ columnTranslation lc.value ++ ")"
  | .node _ _ none _ => ""

/-- A well-formed unary-function chain: a `UnaryOperator` spine along left
children, each spine node having a left child. -/
def isChainB : Node → Bool
  | .node ty _ (some lc) _ =>
      decide (ty = NodeType.UnaryOperator) &&
      (if lc.type = NodeType.UnaryOperator then isChainB lc else true)
  | .node _ _ none _ => false

/-- The key path of a singleton nested-map chain. -/
def chainKeys : List (String × FVal) → List String
  | [(k, .fmap m)] => k :: chainKeys m
  | [(k, .str _)] => [k]
  | _ => []

/-- The leaf string of a singleton nested-map chain. -/
def chainLeaf : List (String × FVal) → Option String
  | [(_, .fmap m)] => chainLeaf m
  | [(_, .str s)] => some s
  | _ => none

/- ### Evaluation semantics of emitted conditions -/

/-- The SQL operator recognized in an emitted fragment. -/
inductive SqlOp where
  | oeq
  | one
  | olt
  | ole
  | ogt
  | oge
  | olike (esc : Bool)
  | onotlike (esc : Bool)
deriving DecidableEq, Repr

/-- Reversed character list of a string. -/
def revChars (s : String) : List Char :=
  s.data.reverse

/-- Recognize the operator of an emitted fragment `"<lhs> <op> ?"` (or the
`LIKE` forms with optional escape clause), working on the reversed character
list; returns the operator and the reversed characters of `<lhs>`.  Longer
patterns are tried before their suffixes. -/
def parseFragRev (l : List Char) : Option (SqlOp × List Char) :=
  if (revChars " NOT LIKE ? ESCAPE '\\'").isPrefixOf l then
    some (.onotlike true, l.drop (revChars " NOT LIKE ? ESCAPE '\\'").length)
  else if (revChars " LIKE ? ESCAPE '\\'").isPrefixOf l then
    some (.olike true, l.drop (revChars " LIKE ? ESCAPE '\\'").length)
  else if (revChars " NOT LIKE ?").isPrefixOf l then
    some (.onotlike false, l.drop (revChars " NOT LIKE ?").length)
  else if (revChars " LIKE ?").isPrefixOf l then
    some (.olike false, l.drop (revChars " LIKE ?").length)
  else if (revChars " != ?").isPrefixOf l then
    some (.one, l.drop (revChars " != ?").length)
  else if (revChars " >= ?").isPrefixOf l then
    some (.oge, l.drop (revChars " >= ?").length)
  else if (revChars " <= ?").isPrefixOf l then
    some (.ole, l.drop (revChars " <= ?").length)
  else if (revChars " = ?").isPrefixOf l then
    some (.oeq, l.drop (revChars " = ?").length)
  else if (revChars " > ?").isPrefixOf l then
    some (.ogt, l.drop (revChars " > ?").length)
  else if (revChars " < ?").isPrefixOf l then
    some (.olt, l.drop (revChars " < ?").length)
  else none

/-- A linear-order comparison of SQL values: integers by value, strings
lexicographically, integers before strings. -/
def gvCompare (a b : GVal) : Ordering :=
  match a, b with
  | .gint x, .gint y => compare x y
  | .gstr x, .gstr y => compare x y
  | .gint _, .gstr _ => Ordering.lt
  | .gstr _, .gint _ => Ordering.gt

/-- Two-valued SQL comparison semantics over the linear order `gvCompare`. -/
def evalCmp (op : SqlOp) (v a : GVal) : Bool :=
  match op with
  | .oeq => gvCompare v a = Ordering.eq
  | .one => !(decide (gvCompare v a = Ordering.eq))
  | .olt => gvCompare v a = Ordering.lt
  | .oge => !(decide (gvCompare v a = Ordering.lt))
  | .ogt => gvCompare v a = Ordering.gt
  | .ole => !(decide (gvCompare v a = Ordering.gt))
  | _ => false

/-- Evaluation of an emitted fragment against a row.  `row` assigns a value
to each left-hand SQL expression, `like` is the SQL `LIKE` relation (value,
pattern).  Fragments our recognizer does not understand evaluate to
`false`. -/
def evalFrag (row : String → GVal) (like : GVal → String → Bool)
    (sql : String) (arg : GVal) : Bool :=
  match parseFragRev (revChars sql) with
  | none => false
  | some (op, lhsRev) =>
      let lhs : String := ⟨lhsRev.reverse⟩
      let v := row lhs
      let pat : String := match arg with | .gstr s => s | .gint n => toString n
      match op with
      | .olike _ => like v pat
      | .onotlike _ => !(like v pat)
      | _ => evalCmp op v arg

/-- Evaluation of an accumulated condition; `msat` interprets nested-map
conditions. -/
def evalCond (row : String → GVal) (like : GVal → String → Bool)
    (msat : List (String × FVal) → Bool) : Cond → Bool
  | .frag sql arg => evalFrag row like sql arg
  | .cmap m => msat m
  | .cand a b => evalCond row like msat a && evalCond row like msat b
  | .cor a b => evalCond row like msat a || evalCond row like msat b

/-- Evaluation of a builder state; a builder with no condition keeps every
row. -/
def evalBuilder (row : String → GVal) (like : GVal → String → Bool)
    (msat : List (String × FVal) → Bool) : Builder → Bool
  | none => true
  | some c => evalCond row like msat c

/-- The left-hand SQL expression does not end in `" NOT"`, so recognizing the
operator of a `LIKE` fragment is unambiguous. -/
def lhsSafeB (s : String) : Bool :=
  !(['T', 'O', 'N', ' '].isPrefixOf s.data.reverse)

/-- The comparison operators of the emitter. -/
def cmpOps : List String := ["eq", "ne", "lt", "le", "gt", "ge"]

/-- The string-predicate operators of the emitter. -/
def strOps : List String := ["contains", "startswith", "endswith"]

/-- `not`-free, navigation-free subexpressions accepted by the emitter: the
class of trees over `and`/`or`, comparisons and string predicates for which
the De Morgan correspondence is stated.  Comparison right operands are
literals (not unary, not `concat`); no left operand contains `/`; rendered
left-hand expressions do not end in `" NOT"`. -/
def goodE (databaseType : DbType) (columnTranslation : String → String) : Node → Bool
  | .node ty v l r =>
      match ty with
      | NodeType.Operator =>
          if v = "and" ∨ v = "or" then
            match l, r with
            | some lc, some rc =>
                goodE databaseType columnTranslation lc &&
                goodE databaseType columnTranslation rc
            | _, _ => false
          else if v ∈ cmpOps then
            match l, r with
            | some lc, some rc =>
                !(strHasChar lc.value '/') &&
                !(decide (rc.type = NodeType.UnaryOperator)) &&
                !(decide (rc.value = "concat"))
            | _, _ => false
          else if v ∈ strOps then
            match l, r with
            | some lc, some _ =>
                !(strHasChar lc.value '/') &&
                lhsSafeB (emitLeftOperand databaseType columnTranslation lc)
            | _, _ => false
          else false
      | _ => false

/- ### Concrete trees and instances used by closed theorems and witnesses -/

/-- A childless node. -/
def mkLeaf (ty : NodeType) (v : String) : Node := .node ty v none none

/-- The identity naming strategy, used by concrete instances. -/
def idTrans : String → String := fun s => s

/-- `concat('x', name)`-style tree: `concat(name,'x')`. -/
def exConcat : Node :=
  .node NodeType.Operator "concat" (some (mkLeaf NodeType.LeftOperand "name"))
    (some (mkLeaf NodeType.RightOperand "'x'"))

/-- `name eq 'test'`. -/
def exEq : Node :=
  .node NodeType.Operator "eq" (some (mkLeaf NodeType.LeftOperand "name"))
    (some (mkLeaf NodeType.RightOperand "'test'"))

/-- `name eq concat(name,'x')`: a comparison with a `concat` right operand,
rejected by the emitter. -/
def exBadEq : Node :=
  .node NodeType.Operator "eq" (some (mkLeaf NodeType.LeftOperand "name")) (some exConcat)

/-- `name eq concat(name,'x') and name eq 'test'`: an `and` whose left child
fails to emit. -/
def exAndBad : Node := .node NodeType.Operator "and" (some exBadEq) (some exEq)

/-- `metadata/name eq 'x'`: a navigation-path equality. -/
def exNavEq : Node :=
  .node NodeType.Operator "eq" (some (mkLeaf NodeType.LeftOperand "metadata/name"))
    (some (mkLeaf NodeType.RightOperand "'x'"))

/-- `not(metadata/name eq 'x')`. -/
def exNotNavEq : Node := .node NodeType.UnaryOperator "not" (some exNavEq) none

/-- `length(concat(name,'x'))`: a unary function whose innermost argument is
a `concat` tree. -/
def exLenConcat : Node := .node NodeType.UnaryOperator "length" (some exConcat) none

/-- `length(trim(toupper(testValue)))`. -/
def exChain3 : Node :=
  .node NodeType.UnaryOperator "length"
    (some (.node NodeType.UnaryOperator "trim"
      (some (.node NodeType.UnaryOperator "toupper"
        (some (mkLeaf NodeType.LeftOperand "testValue")) none)) none)) none

/-- A process state on which the prefix-value collaborator is already
registered and the cache is empty (the first build call of the process). -/
def exPluginState : PluginState :=
  ⟨[], gormqonvertTranslation, gormqonvertTranslationReversed, false, true⟩

/-- A concrete collaborator configuration with distinguishable tokens. -/
def exConfig : CharacterConfig := ⟨"G>", "G>=", "L<", "L<=", "N!=", "K~", "K!~"⟩

/- ### C1 -/

/-- C1: the claim states that an `and`/`or` node propagates a failing child's
invalid-query error to the caller.  The code instead passes the child's
`(db, error)` pair as the arguments of `Where`/`Or`, never inspects the error,
and returns a nil error: on `name eq concat(name,'x') and name eq 'test'` the
left child alone reports the `concat`-as-right-operand error, while the `and`
build returns no error at all. -/
theorem C1_connective_drops_child_error :
    (buildGormQuery exAndBad none DbType.SQLite operatorTranslation gormqonvertTranslation
      gormqonvertTranslationReversed idTrans false).2 = none ∧
    (buildGormQuery exBadEq none DbType.SQLite operatorTranslation gormqonvertTranslation
      gormqonvertTranslationReversed idTrans false).2 = some msgConcatRight :=
  ⟨rfl, rfl⟩

/- ### C2 counterexample -/

/-- C2 (counterexample): for the accepted subexpression
`E = metadata/name eq 'x'`, the build of `not(E)` is identical to the build of
`E` — the nested-map leaf keeps the bare literal because the code tests
`root.Value != "eq"` even when the reversed tables are in force — so the
emitted predicate of `not(E)` evaluates exactly as the predicate of `E` and
not as its negation. -/
theorem C2_deMorgan_counterexample :
    (buildGormQuery exNotNavEq none DbType.SQLite operatorTranslation gormqonvertTranslation
      gormqonvertTranslationReversed idTrans false)
    = (buildGormQuery exNavEq none DbType.SQLite operatorTranslation gormqonvertTranslation
      gormqonvertTranslationReversed idTrans false) ∧
    ¬ (evalBuilder (fun _ => .gstr "x") (fun _ _ => true) (fun _ => true)
        (buildGormQuery exNotNavEq none DbType.SQLite operatorTranslation gormqonvertTranslation
          gormqonvertTranslationReversed idTrans false).1
       = ! evalBuilder (fun _ => .gstr "x") (fun _ _ => true) (fun _ => true)
          (buildGormQuery exNavEq none DbType.SQLite operatorTranslation gormqonvertTranslation
            gormqonvertTranslationReversed idTrans false).1) :=
  ⟨rfl, by decide⟩

/- ### C6 counterexample -/

/-- C6 (counterexample): in `length(concat(name,'x'))` the innermost argument
of the unary chain is a `concat` tree, but `buildUnaryFuncChain` renders it by
applying the naming strategy to the literal node value `"concat"` instead of
invoking the concat emitter. -/
theorem C6_unaryChain_counterexample :
    buildUnaryFuncChain DbType.SQLite idTrans exLenConcat = "LENGTH(concat)" ∧
    buildUnaryFuncChain DbType.SQLite idTrans exLenConcat ≠
      "LENGTH(" ++ buildConcat DbType.SQLite idTrans exConcat ++ ")" :=
  ⟨rfl, by decide⟩

/- ### C8 counterexample -/

/-- C8 (counterexample): on the first build call with the prefix-value
collaborator already registered, `checkDbPlugins` stores only the reversed
prefix table in the process-wide cache; the forward table is populated from
the collaborator's configuration but never stored, so the forward cache entry
is still missing afterwards. -/
theorem C8_prefix_cache_counterexample :
    ((checkDbPlugins exConfig exPluginState).cache.lookup "gormqonvertTranslation" = none) ∧
    ((checkDbPlugins exConfig exPluginState).cache.lookup "gormqonvertTranslationReversed"
      ≠ none) :=
  ⟨rfl, by decide⟩

/- ### Lemmas about the string helpers -/

theorem strExt {a b : String} (h : a.data = b.data) : a = b := by
  cases a; cases b; exact congrArg String.mk (by simpa using h)

theorem strHasChar_append (a b : String) (c : Char) :
    strHasChar (a ++ b) c = (strHasChar a c || strHasChar b c) := by
  simp [strHasChar, String.data_append, List.contains_eq_any_beq, List.any_append]

theorem strHasChar_iff (s : String) (c : Char) : strHasChar s c = true ↔ c ∈ s.data := by
  simp [strHasChar, List.elem_iff]

theorem strHasChar_removeAll (c : Char) (s : String) :
    strHasChar (removeAll c s) c = false := by
  simp [strHasChar, removeAll, List.contains_eq_any_beq]

theorem removeAll_append (c : Char) (a b : String) :
    removeAll c (a ++ b) = removeAll c a ++ removeAll c b := by
  apply strExt
  simp [removeAll, String.data_append]

theorem removeAll_quoted (inner : String) :
    removeAll '\'' ("'" ++ inner ++ "'") = removeAll '\'' inner := by
  apply strExt
  simp [removeAll, String.data_append]

theorem removeAll_of_not_has (c : Char) (s : String) (h : strHasChar s c = false) :
    removeAll c s = s := by
  apply strExt
  simp only [removeAll]
  apply List.filter_eq_self.mpr
  intro a ha
  have : ¬ c ∈ s.data := by
    intro hc
    rw [← strHasChar_iff] at hc
    simp [hc] at h
  simp only [ne_eq, decide_eq_true_eq]
  intro h2
  exact this (h2 ▸ ha)

theorem escPercentList_append (l1 l2 : List Char) :
    escPercentList (l1 ++ l2) = escPercentList l1 ++ escPercentList l2 := by
  induction l1 with
  | nil => rfl
  | cons a l ih => simp [escPercentList, ih]

theorem escPercentList_of_no_pct (l : List Char) (h : ¬ '%' ∈ l) :
    escPercentList l = l := by
  induction l with
  | nil => rfl
  | cons a l ih =>
      have ha : a ≠ '%' := by
        intro hh
        exact h (by simp [hh])
      have : ¬ '%' ∈ l := fun hh => h (by simp [hh])
      simp [escPercentList, ih this, if_neg (by simpa [eq_comm] using ha)]

theorem escPercent_split (A B : String) (hA : strHasChar A '%' = false)
    (hB : strHasChar B '%' = false) :
    escPercent (A ++ "%" ++ B) = A ++ "\\%" ++ B := by
  apply strExt
  have hA2 : ¬ '%' ∈ A.data := by
    intro h
    rw [← strHasChar_iff] at h
    simp [h] at hA
  have hB2 : ¬ '%' ∈ B.data := by
    intro h
    rw [← strHasChar_iff] at h
    simp [h] at hB
  simp [escPercent, String.data_append, escPercentList_append,
    escPercentList_of_no_pct _ hA2, escPercentList_of_no_pct _ hB2, escPercentList]

theorem escPercent_of_no_pct (s : String) (h : strHasChar s '%' = false) :
    escPercent s = s := by
  apply strExt
  have h2 : ¬ '%' ∈ s.data := by
    intro hh
    rw [← strHasChar_iff] at hh
    simp [hh] at h
  simp [escPercent, escPercentList_of_no_pct _ h2]

theorem sprintf1_verb (suffix : String) (arg : String) :
    sprintf1 ("%s" ++ suffix) arg = arg ++ suffix := by
  apply strExt
  have : (("%s" : String) ++ suffix).data = '%' :: 's' :: suffix.data := rfl
  simp [sprintf1, this, sprintf1List, String.data_append]

theorem expandDollarOneList_dollar (g rest : List Char) :
    expandDollarOneList g ('$' :: '1' :: rest) = g ++ expandDollarOneList g rest := by
  simp [expandDollarOneList]

/-- The spec-side `LIKE` pattern assembly: `%TEXT%`, `TEXT%`, `%TEXT`. -/
def affixPat : String → String → String
  | "contains", t => "%" ++ t ++ "%"
  | "startswith", t => t ++ "%"
  | "endswith", t => "%" ++ t
  | _, t => t

theorem expandDollarOne_template (v : String) (T : String) (hv : v ∈ strOps) :
    expandDollarOne (lookupD rightOperandTranslation v) T = affixPat v T := by
  have h1 : ∀ t : String, expandDollarOne "%$1%" t = "%" ++ t ++ "%" := by
    intro t
    apply strExt
    have hm : ("%$1%" : String).data = '%' :: '$' :: '1' :: ['%'] := rfl
    simp [expandDollarOne, hm, expandDollarOneList, String.data_append]
  have h2 : ∀ t : String, expandDollarOne "$1%" t = t ++ "%" := by
    intro t
    apply strExt
    have hm : ("$1%" : String).data = '$' :: '1' :: ['%'] := rfl
    simp [expandDollarOne, hm, expandDollarOneList, String.data_append]
  have h3 : ∀ t : String, expandDollarOne "%$1" t = "%" ++ t := by
    intro t
    apply strExt
    have hm : ("%$1" : String).data = '%' :: '$' :: ['1'] := rfl
    simp [expandDollarOne, hm, expandDollarOneList, String.data_append]
  simp only [strOps, List.mem_cons, List.not_mem_nil, or_false] at hv
  rcases hv with rfl | rfl | rfl
  · simpa [rightOperandTranslation, lookupD, affixPat] using h1 T
  · simpa [rightOperandTranslation, lookupD, affixPat] using h2 T
  · simpa [rightOperandTranslation, lookupD, affixPat] using h3 T

theorem splitCharList_of_not_has (c : Char) (l : List Char) (h : ¬ c ∈ l) :
    splitCharList c l = [l] := by
  induction l with
  | nil => rfl
  | cons a rest ih =>
      simp only [List.mem_cons, not_or] at h
      simp only [splitCharList, ih h.2]
      have hne : ¬ a = c := fun hh => h.1 hh.symm
      simp [hne]

/-- On a newline-free string the whole input is one segment. -/
theorem regexQuoteReplace_no_newline (tmpl s : String)
    (h : strHasChar s '\n' = false) :
    regexQuoteReplace tmpl s = ⟨regexQuoteReplaceLine tmpl s.data⟩ := by
  have hmem : ¬ '\n' ∈ s.data := by
    intro hc
    rw [(strHasChar_iff s '\n').mpr hc] at h
    cases h
  simp only [regexQuoteReplace, splitCharList_of_not_has '\n' s.data hmem]
  simp [List.intercalate]

theorem regexQuoteReplace_quoted (tmpl T : String)
    (hnl : strHasChar T '\n' = false) :
    regexQuoteReplace tmpl ("'" ++ T ++ "'") = expandDollarOne tmpl T := by
  have hq : strHasChar ("'" ++ T ++ "'") '\n' = false := by
    rw [strHasChar_append, strHasChar_append, hnl]
    decide
  rw [regexQuoteReplace_no_newline _ _ hq]
  have hdata : (("'" : String) ++ T ++ "'").data = '\'' :: (T.data ++ ['\'']) := by
    simp [String.data_append]
  have hrev : (('\'' : Char) :: (T.data ++ ['\''])).reverse
      = '\'' :: (T.data.reverse ++ ['\'']) := by
    simp
  have hfirst : firstIdxOf '\'' ('\'' :: (T.data ++ ['\''])) = some 0 := by
    simp [firstIdxOf, List.findIdx?]
  have hfirstRev : firstIdxOf '\'' ('\'' :: (T.data.reverse ++ ['\''])) = some 0 := by
    simp [firstIdxOf, List.findIdx?]
  have hlen : (('\'' : Char) :: (T.data ++ ['\''])).length = T.data.length + 2 := by
    simp
  apply strExt
  show regexQuoteReplaceLine tmpl (("'" ++ T ++ "'").data) = (expandDollarOne tmpl T).data
  rw [hdata]
  simp only [regexQuoteReplaceLine, hrev, hfirst, hfirstRev, hlen]
  have hj : T.data.length + 2 - 1 - 0 = T.data.length + 1 := by omega
  rw [hj]
  have hlt : 0 < T.data.length + 1 := by omega
  rw [if_pos hlt]
  have hdrop : (('\'' : Char) :: (T.data ++ ['\''])).drop (0 + 1) = T.data ++ ['\''] := rfl
  have htake : (T.data ++ ['\'']).take (T.data.length + 1 - 0 - 1) = T.data := by
    have : T.data.length + 1 - 0 - 1 = T.data.length := by omega
    rw [this]
    exact List.take_left T.data ['\'']
  have hdrop2 : (('\'' : Char) :: (T.data ++ ['\''])).drop (T.data.length + 1 + 1) = [] := by
    apply List.drop_eq_nil_of_le
    simp
  simp only [List.take_zero, hdrop, htake, hdrop2, List.nil_append, List.append_nil]

theorem splitCharList_ne_nil (c : Char) (l : List Char) : splitCharList c l ≠ [] := by
  induction l with
  | nil => simp [splitCharList]
  | cons a rest ih =>
      simp only [splitCharList]
      cases h : splitCharList c rest with
      | nil => exact absurd h ih
      | cons r rs =>
          by_cases hac : a = c <;> simp [hac]

theorem splitOnSlash_ne_nil (s : String) : splitOnSlash s ≠ [] := by
  simp only [splitOnSlash, ne_eq, List.map_eq_nil_iff]
  exact splitCharList_ne_nil '/' s.data

theorem chainKeys_buildNestedMap (colT : String → String) (leaf : String) :
    ∀ segs : List String, segs ≠ [] →
      chainKeys (buildNestedMap colT leaf segs) = segs.map colT := by
  intro segs
  induction segs with
  | nil => intro h; exact absurd rfl h
  | cons f rest ih =>
      intro _
      cases rest with
      | nil => simp [buildNestedMap, chainKeys]
      | cons g rs =>
          simp only [buildNestedMap, chainKeys, List.map_cons]
          rw [ih (by simp)]
          simp

theorem chainLeaf_buildNestedMap (colT : String → String) (leaf : String) :
    ∀ segs : List String, segs ≠ [] →
      chainLeaf (buildNestedMap colT leaf segs) = some leaf := by
  intro segs
  induction segs with
  | nil => intro h; exact absurd rfl h
  | cons f rest ih =>
      intro _
      cases rest with
      | nil => simp [buildNestedMap, chainLeaf]
      | cons g rs =>
          simp only [buildNestedMap, chainLeaf]
          exact ih (by simp)

/- ### Reduction lemmas for the emitter branches -/

theorem buildGormQuery_cmp_frag (databaseType : DbType) (colT : String → String)
    (db : Builder) (opT gqT gqRevG : List (String × String)) (b : Bool)
    (v : String) (lc rc : Node)
    (hv : v ∈ cmpOps)
    (hnav : strHasChar lc.value '/' = false)
    (hrt : rc.type = NodeType.RightOperand)
    (hrc : rc.value ≠ "concat") :
    buildGormQuery (.node NodeType.Operator v (some lc) (some rc)) db databaseType
      opT gqT gqRevG colT b
    = (whereC db (some (.frag
        (emitLeftOperand databaseType colT lc ++ " " ++ lookupD opT v ++ " ?")
        (match atoiQ (removeAll '\'' rc.value) with
         | some n => GVal.gint n
         | none => GVal.gstr (removeAll '\'' rc.value)))), none) := by
  simp only [cmpOps, List.mem_cons, List.not_mem_nil, or_false] at hv
  rcases hv with rfl | rfl | rfl | rfl | rfl | rfl <;>
    · simp only [buildGormQuery, hrt, hrc, hnav]
      simp
      cases atoiQ (removeAll '\'' rc.value) <;> rfl

theorem buildGormQuery_cmp_map (databaseType : DbType) (colT : String → String)
    (db : Builder) (opT gqT gqRevG : List (String × String)) (b : Bool)
    (v : String) (lc rc : Node)
    (hv : v ∈ cmpOps)
    (hnav : strHasChar lc.value '/' = true)
    (hrt : rc.type = NodeType.RightOperand)
    (hrc : rc.value ≠ "concat") :
    buildGormQuery (.node NodeType.Operator v (some lc) (some rc)) db databaseType
      opT gqT gqRevG colT b
    = (whereC db (some (.cmap (buildNestedMap colT
        (if v ≠ "eq" then lookupD gqT v ++ removeAll '\'' (removeAll '\'' rc.value)
         else removeAll '\'' (removeAll '\'' rc.value))
        (splitOnSlash lc.value)))), none) := by
  simp only [cmpOps, List.mem_cons, List.not_mem_nil, or_false] at hv
  rcases hv with rfl | rfl | rfl | rfl | rfl | rfl <;>
    · simp only [buildGormQuery, hrt, hrc, hnav]
      simp

theorem buildGormQuery_str_frag (databaseType : DbType) (colT : String → String)
    (db : Builder) (opT gqT gqRevG : List (String × String)) (b : Bool)
    (v : String) (lc rc : Node)
    (hv : v ∈ strOps)
    (hnav : strHasChar lc.value '/' = false) :
    buildGormQuery (.node NodeType.Operator v (some lc) (some rc)) db databaseType
      opT gqT gqRevG colT b
    = (whereC db (some (.frag
        (sprintf1
          ((if b then "%s NOT LIKE ?" else "%s LIKE ?") ++
            (if strHasChar rc.value '%' then " ESCAPE '\\'" else ""))
          (emitLeftOperand databaseType colT lc))
        (.gstr (regexQuoteReplace (lookupD rightOperandTranslation v)
          (if strHasChar rc.value '%' then escPercent rc.value else rc.value))))), none) := by
  simp only [strOps, List.mem_cons, List.not_mem_nil, or_false] at hv
  rcases hv with rfl | rfl | rfl <;>
    · simp only [buildGormQuery, hnav]
      cases hp : strHasChar rc.value '%' <;> cases b <;> simp [hp]

/- ### C7 -/

/-- `strconv.Atoi` rejects values beyond the 64-bit `int` range (`ErrRange`),
so `2^63` falls to the string branch while `-2^63` and `2^63 - 1` parse. -/
theorem atoiQ_range_bounds :
    atoiQ "9223372036854775808" = none ∧
    atoiQ "9223372036854775807" = some 9223372036854775807 ∧
    atoiQ "-9223372036854775808" = some (-9223372036854775808) := by
  refine ⟨by decide, by decide, by decide⟩

/-- C7: for every comparison (`eq`, `ne`, `lt`, `le`, `gt`, `ge`) whose left
operand contains no `/`, the emitter attaches the fragment `<left> <op> ?`
with exactly one bound parameter, the right-hand literal: bound as a base-10
integer when it parses as one (`strconv.Atoi` succeeds, 64-bit range check
included — see `atoiQ_range_bounds`) and as a string otherwise. -/
theorem C7_comparison_fragment (databaseType : DbType) (colT : String → String)
    (db : Builder) (opT gqT gqRevG : List (String × String)) (b : Bool)
    (v : String) (lc rc : Node)
    (hv : v ∈ cmpOps)
    (hnav : strHasChar lc.value '/' = false)
    (hrt : rc.type = NodeType.RightOperand)
    (hrc : rc.value ≠ "concat") :
    buildGormQuery (.node NodeType.Operator v (some lc) (some rc)) db databaseType
      opT gqT gqRevG colT b
    = (whereC db (some (.frag
        (emitLeftOperand databaseType colT lc ++ " " ++ lookupD opT v ++ " ?")
        (match atoiQ (removeAll '\'' rc.value) with
         | some n => GVal.gint n
         | none => GVal.gstr (removeAll '\'' rc.value)))), none) :=
  buildGormQuery_cmp_frag databaseType colT db opT gqT gqRevG b v lc rc hv hnav hrt hrc

/-- Witness for C7: `age gt 10` on SQLite emits `age > ?` with the integer 10
bound. -/
theorem C7_comparison_fragment_witness :
    ("gt" : String) ∈ cmpOps ∧
    buildGormQuery (.node NodeType.Operator "gt" (some (mkLeaf NodeType.LeftOperand "age"))
        (some (mkLeaf NodeType.RightOperand "10"))) none DbType.SQLite operatorTranslation
        gormqonvertTranslation gormqonvertTranslationReversed idTrans false
      = (whereC none (some (.frag
          (emitLeftOperand DbType.SQLite idTrans (mkLeaf NodeType.LeftOperand "age")
            ++ " " ++ lookupD operatorTranslation "gt" ++ " ?")
          (match atoiQ (removeAll '\'' (mkLeaf NodeType.RightOperand "10").value) with
           | some n => GVal.gint n
           | none => GVal.gstr (removeAll '\'' (mkLeaf NodeType.RightOperand "10").value)))),
        none) :=
  ⟨by decide,
   C7_comparison_fragment DbType.SQLite idTrans none operatorTranslation
     gormqonvertTranslation gormqonvertTranslationReversed false "gt"
     (mkLeaf NodeType.LeftOperand "age") (mkLeaf NodeType.RightOperand "10")
     (by decide) (by decide) rfl (by decide)⟩

/- ### C9 -/

/-- C9: before binding, the emitter removes every apostrophe from a
comparison's right operand, not only the outer quotes: the bound string never
contains an apostrophe, and whenever the fully stripped text (in particular
the inner text of a quoted literal such as `'123'`) parses as a base-10
integer, the value is bound as an integer parameter. -/
theorem C9_apostrophe_stripping (databaseType : DbType) (colT : String → String)
    (db : Builder) (opT gqT gqRevG : List (String × String)) (b : Bool)
    (v : String) (lc rc : Node)
    (hv : v ∈ cmpOps)
    (hnav : strHasChar lc.value '/' = false)
    (hrt : rc.type = NodeType.RightOperand)
    (hrc : rc.value ≠ "concat") :
    ∃ arg : GVal,
      buildGormQuery (.node NodeType.Operator v (some lc) (some rc)) db databaseType
        opT gqT gqRevG colT b
      = (whereC db (some (.frag
          (emitLeftOperand databaseType colT lc ++ " " ++ lookupD opT v ++ " ?") arg)), none) ∧
      (∀ s, arg = GVal.gstr s → strHasChar s '\'' = false) ∧
      (∀ inner n, rc.value = "'" ++ inner ++ "'" → atoiQ (removeAll '\'' inner) = some n →
        arg = GVal.gint n) := by
  refine ⟨match atoiQ (removeAll '\'' rc.value) with
          | some n => GVal.gint n
          | none => GVal.gstr (removeAll '\'' rc.value), ?_, ?_, ?_⟩
  · exact buildGormQuery_cmp_frag databaseType colT db opT gqT gqRevG b v lc rc hv hnav hrt hrc
  · intro s hs
    cases h : atoiQ (removeAll '\'' rc.value) with
    | some n => rw [h] at hs; exact absurd hs (by simp)
    | none =>
        rw [h] at hs
        have : removeAll '\'' rc.value = s := by
          simpa using hs
        rw [← this]
        exact strHasChar_removeAll '\'' rc.value
  · intro inner n hq hn
    have h2 : removeAll '\'' rc.value = removeAll '\'' inner := by
      rw [hq, removeAll_quoted]
    rw [h2, hn]

/-- Witness for C9: `name eq '123'` binds the integer 123 (the quotes and any
other apostrophes are stripped before the integer parse). -/
theorem C9_apostrophe_stripping_witness :
    ("eq" : String) ∈ cmpOps ∧
    ∃ arg : GVal,
      buildGormQuery (.node NodeType.Operator "eq" (some (mkLeaf NodeType.LeftOperand "name"))
          (some (mkLeaf NodeType.RightOperand "'123'"))) none DbType.SQLite operatorTranslation
          gormqonvertTranslation gormqonvertTranslationReversed idTrans false
      = (whereC none (some (.frag
          (emitLeftOperand DbType.SQLite idTrans (mkLeaf NodeType.LeftOperand "name")
            ++ " " ++ lookupD operatorTranslation "eq" ++ " ?") arg)), none) ∧
      (∀ s, arg = GVal.gstr s → strHasChar s '\'' = false) ∧
      (∀ inner n, (mkLeaf NodeType.RightOperand "'123'").value = "'" ++ inner ++ "'" →
        atoiQ (removeAll '\'' inner) = some n → arg = GVal.gint n) :=
  ⟨by decide,
   C9_apostrophe_stripping DbType.SQLite idTrans none operatorTranslation
     gormqonvertTranslation gormqonvertTranslationReversed false "eq"
     (mkLeaf NodeType.LeftOperand "name") (mkLeaf NodeType.RightOperand "'123'")
     (by decide) (by decide) rfl (by decide)⟩

/- ### C4 -/

/-- C4: a comparison whose left operand contains `/` switches to the
nested-filter form: the emitter attaches, through the builder's `Where(map)`
form, a nested map obtained by splitting the path on `/`, applying the naming
strategy to every segment (one map level per non-final segment), and placing
the literal at the leaf — bare for `eq`, prefixed with the configured token
for every other comparison. -/
theorem C4_nested_filter_map (databaseType : DbType) (colT : String → String)
    (db : Builder) (opT gqT gqRevG : List (String × String)) (b : Bool)
    (v : String) (lc rc : Node)
    (hv : v ∈ cmpOps)
    (hnav : strHasChar lc.value '/' = true)
    (hrt : rc.type = NodeType.RightOperand)
    (hrc : rc.value ≠ "concat") :
    buildGormQuery (.node NodeType.Operator v (some lc) (some rc)) db databaseType
      opT gqT gqRevG colT b
    = (whereC db (some (.cmap (buildNestedMap colT
        (if v ≠ "eq" then lookupD gqT v ++ removeAll '\'' (removeAll '\'' rc.value)
         else removeAll '\'' (removeAll '\'' rc.value))
        (splitOnSlash lc.value)))), none) ∧
    chainKeys (buildNestedMap colT
        (if v ≠ "eq" then lookupD gqT v ++ removeAll '\'' (removeAll '\'' rc.value)
         else removeAll '\'' (removeAll '\'' rc.value))
        (splitOnSlash lc.value)) = (splitOnSlash lc.value).map colT ∧
    chainLeaf (buildNestedMap colT
        (if v ≠ "eq" then lookupD gqT v ++ removeAll '\'' (removeAll '\'' rc.value)
         else removeAll '\'' (removeAll '\'' rc.value))
        (splitOnSlash lc.value))
      = some (if v ≠ "eq" then lookupD gqT v ++ removeAll '\'' (removeAll '\'' rc.value)
         else removeAll '\'' (removeAll '\'' rc.value)) :=
  ⟨buildGormQuery_cmp_map databaseType colT db opT gqT gqRevG b v lc rc hv hnav hrt hrc,
   chainKeys_buildNestedMap colT _ (splitOnSlash lc.value) (splitOnSlash_ne_nil lc.value),
   chainLeaf_buildNestedMap colT _ (splitOnSlash lc.value) (splitOnSlash_ne_nil lc.value)⟩

/-- Witness for C4: `metadata/name gt '5'` builds the nested map
`{metadata: {name: "<gt-prefix>5"}}` and attaches it as a map condition. -/
theorem C4_nested_filter_map_witness :
    ("gt" : String) ∈ cmpOps ∧
    strHasChar (mkLeaf NodeType.LeftOperand "metadata/name").value '/' = true ∧
    (buildGormQuery (.node NodeType.Operator "gt"
        (some (mkLeaf NodeType.LeftOperand "metadata/name"))
        (some (mkLeaf NodeType.RightOperand "'5'"))) none DbType.SQLite operatorTranslation
        gormqonvertTranslation gormqonvertTranslationReversed idTrans false
    = (whereC none (some (.cmap (buildNestedMap idTrans
        (if ("gt" : String) ≠ "eq" then lookupD gormqonvertTranslation "gt" ++
            removeAll '\'' (removeAll '\'' (mkLeaf NodeType.RightOperand "'5'").value)
         else removeAll '\'' (removeAll '\'' (mkLeaf NodeType.RightOperand "'5'").value))
        (splitOnSlash (mkLeaf NodeType.LeftOperand "metadata/name").value)))), none) ∧
    chainKeys (buildNestedMap idTrans
        (if ("gt" : String) ≠ "eq" then lookupD gormqonvertTranslation "gt" ++
            removeAll '\'' (removeAll '\'' (mkLeaf NodeType.RightOperand "'5'").value)
         else removeAll '\'' (removeAll '\'' (mkLeaf NodeType.RightOperand "'5'").value))
        (splitOnSlash (mkLeaf NodeType.LeftOperand "metadata/name").value))
      = (splitOnSlash (mkLeaf NodeType.LeftOperand "metadata/name").value).map idTrans ∧
    chainLeaf (buildNestedMap idTrans
        (if ("gt" : String) ≠ "eq" then lookupD gormqonvertTranslation "gt" ++
            removeAll '\'' (removeAll '\'' (mkLeaf NodeType.RightOperand "'5'").value)
         else removeAll '\'' (removeAll '\'' (mkLeaf NodeType.RightOperand "'5'").value))
        (splitOnSlash (mkLeaf NodeType.LeftOperand "metadata/name").value))
      = some (if ("gt" : String) ≠ "eq" then lookupD gormqonvertTranslation "gt" ++
            removeAll '\'' (removeAll '\'' (mkLeaf NodeType.RightOperand "'5'").value)
         else removeAll '\'' (removeAll '\'' (mkLeaf NodeType.RightOperand "'5'").value))) :=
  ⟨by decide, by decide,
   C4_nested_filter_map DbType.SQLite idTrans none operatorTranslation
     gormqonvertTranslation gormqonvertTranslationReversed false "gt"
     (mkLeaf NodeType.LeftOperand "metadata/name") (mkLeaf NodeType.RightOperand "'5'")
     (by decide) (by decide) rfl (by decide)⟩

/- ### C3 -/

theorem strHasChar_quoted_pct (TEXT : String) :
    strHasChar ("'" ++ TEXT ++ "'") '%' = strHasChar TEXT '%' := by
  rw [strHasChar_append, strHasChar_append]
  have h1 : strHasChar "'" '%' = false := by decide
  simp [h1]

theorem sprintf1_notlike (L : String) : sprintf1 "%s NOT LIKE ?" L = L ++ " NOT LIKE ?" := by
  have h : ("%s NOT LIKE ?" : String) = "%s" ++ " NOT LIKE ?" := by
    apply strExt
    simp [String.data_append]
  rw [h, sprintf1_verb]

theorem sprintf1_like (L : String) : sprintf1 "%s LIKE ?" L = L ++ " LIKE ?" := by
  have h : ("%s LIKE ?" : String) = "%s" ++ " LIKE ?" := by
    apply strExt
    simp [String.data_append]
  rw [h, sprintf1_verb]

theorem sprintf1_notlike_esc (L : String) :
    sprintf1 ("%s NOT LIKE ?" ++ " ESCAPE '\\'") L = L ++ " NOT LIKE ?" ++ " ESCAPE '\\'" := by
  have h : ("%s NOT LIKE ?" : String) ++ " ESCAPE '\\'" = "%s" ++ " NOT LIKE ? ESCAPE '\\'" := by
    apply strExt
    simp [String.data_append]
  rw [h, sprintf1_verb]
  apply strExt
  simp [String.data_append]

theorem sprintf1_like_esc (L : String) :
    sprintf1 ("%s LIKE ?" ++ " ESCAPE '\\'") L = L ++ " LIKE ?" ++ " ESCAPE '\\'" := by
  have h : ("%s LIKE ?" : String) ++ " ESCAPE '\\'" = "%s" ++ " LIKE ? ESCAPE '\\'" := by
    apply strExt
    simp [String.data_append]
  rw [h, sprintf1_verb]
  apply strExt
  simp [String.data_append]

/-- C3 (amended): a `contains`/`startswith`/`endswith` predicate with a
non-navigation left operand and a quoted literal `'TEXT'` in which `TEXT`
contains no newline attaches `<left> LIKE ?` (or `<left> NOT LIKE ?` when
negated) binding as single parameter the pattern `%TEXT%`, `TEXT%` or
`%TEXT`; a `TEXT` with a single literal `%` produces the pattern with
exactly that `%` replaced by `\%` and exactly one ` ESCAPE '\'` clause
appended; a `TEXT` without `%` appends no `ESCAPE` clause.  The newline
restriction is forced by the source: RE2's `.` does not match a newline, so
on a newline-containing literal the quote-stripping replacement is a no-op
and the still-quoted literal is bound unaffixed, see
`C3_like_pattern_counterexample`. -/
theorem C3_like_pattern_escape (databaseType : DbType) (colT : String → String)
    (db : Builder) (opT gqT gqRevG : List (String × String)) (b : Bool)
    (v : String) (lc : Node) (TEXT : String)
    (hv : v ∈ strOps)
    (hnav : strHasChar lc.value '/' = false)
    (hnl : strHasChar TEXT '\n' = false) :
    (strHasChar TEXT '%' = false →
      buildGormQuery (.node NodeType.Operator v (some lc)
          (some (mkLeaf NodeType.RightOperand ("'" ++ TEXT ++ "'")))) db databaseType
          opT gqT gqRevG colT b
      = (whereC db (some (.frag
          (emitLeftOperand databaseType colT lc ++ (if b then " NOT LIKE ?" else " LIKE ?"))
          (.gstr (affixPat v TEXT)))), none)) ∧
    (∀ A B : String, TEXT = A ++ "%" ++ B →
      strHasChar A '%' = false → strHasChar B '%' = false →
      buildGormQuery (.node NodeType.Operator v (some lc)
          (some (mkLeaf NodeType.RightOperand ("'" ++ TEXT ++ "'")))) db databaseType
          opT gqT gqRevG colT b
      = (whereC db (some (.frag
          (emitLeftOperand databaseType colT lc ++ (if b then " NOT LIKE ?" else " LIKE ?")
            ++ " ESCAPE '\\'")
          (.gstr (affixPat v (A ++ "\\%" ++ B))))), none)) := by
  have hstr := buildGormQuery_str_frag databaseType colT db opT gqT gqRevG b v lc
    (mkLeaf NodeType.RightOperand ("'" ++ TEXT ++ "'")) hv hnav
  have hval : (mkLeaf NodeType.RightOperand ("'" ++ TEXT ++ "'")).value = "'" ++ TEXT ++ "'" := rfl
  rw [hval] at hstr
  constructor
  · intro hpct
    have hq : strHasChar ("'" ++ TEXT ++ "'") '%' = false := by
      rw [strHasChar_quoted_pct]; exact hpct
    rw [hstr, hq]
    simp only [Bool.false_eq_true, if_false]
    rw [regexQuoteReplace_quoted _ _ hnl, expandDollarOne_template v TEXT hv]
    have happ : ∀ s : String, s ++ "" = s := fun s => by
      apply strExt
      simp [String.data_append]
    cases b
    · rw [if_neg (by simp), if_neg (by simp), happ, sprintf1_like]
    · rw [if_pos rfl, if_pos rfl, happ, sprintf1_notlike]
  · intro A B hT hA hB
    subst hT
    have hq : strHasChar ("'" ++ (A ++ "%" ++ B) ++ "'") '%' = true := by
      rw [strHasChar_quoted_pct, strHasChar_append, strHasChar_append]
      have : strHasChar "%" '%' = true := by decide
      simp [this]
    have hesc : escPercent ("'" ++ (A ++ "%" ++ B) ++ "'") = "'" ++ (A ++ "\\%" ++ B) ++ "'" := by
      have e1 : ("'" : String) ++ (A ++ "%" ++ B) ++ "'" = ("'" ++ A) ++ "%" ++ (B ++ "'") := by
        apply strExt
        simp [String.data_append]
      have hA2 : strHasChar ("'" ++ A) '%' = false := by
        rw [strHasChar_append]
        have : strHasChar "'" '%' = false := by decide
        simp [this, hA]
      have hB2 : strHasChar (B ++ "'") '%' = false := by
        rw [strHasChar_append]
        have : strHasChar "'" '%' = false := by decide
        simp [this, hB]
      rw [e1, escPercent_split _ _ hA2 hB2]
      apply strExt
      simp [String.data_append]
    have hnlparts : strHasChar A '\n' = false ∧ strHasChar B '\n' = false := by
      rw [strHasChar_append, strHasChar_append] at hnl
      rcases Bool.or_eq_false_iff.mp hnl with ⟨h1, hBnl⟩
      rcases Bool.or_eq_false_iff.mp h1 with ⟨hAnl, -⟩
      exact ⟨hAnl, hBnl⟩
    have hnl2 : strHasChar (A ++ "\\%" ++ B) '\n' = false := by
      rw [strHasChar_append, strHasChar_append, hnlparts.1, hnlparts.2]
      decide
    rw [hstr, hq]
    simp only [if_true]
    rw [hesc, regexQuoteReplace_quoted _ _ hnl2,
      expandDollarOne_template v (A ++ "\\%" ++ B) hv]
    cases b
    · rw [if_neg (by simp), if_neg (by simp), sprintf1_like_esc]
    · rw [if_pos rfl, if_pos rfl, sprintf1_notlike_esc]

/-- Witness for C3: `contains(name,'a%b')` on SQLite emits
`name LIKE ? ESCAPE '\'` with the pattern `%a\%b%` bound, and
`contains(name,'ab')` emits `name LIKE ?` with `%ab%` bound. -/
theorem C3_like_pattern_escape_witness :
    (("contains" : String) ∈ strOps ∧
    (∀ A B : String, ("a%b" : String) = A ++ "%" ++ B →
      strHasChar A '%' = false → strHasChar B '%' = false →
      buildGormQuery (.node NodeType.Operator "contains"
          (some (mkLeaf NodeType.LeftOperand "name"))
          (some (mkLeaf NodeType.RightOperand ("'" ++ "a%b" ++ "'")))) none DbType.SQLite
          operatorTranslation gormqonvertTranslation gormqonvertTranslationReversed idTrans false
      = (whereC none (some (.frag
          (emitLeftOperand DbType.SQLite idTrans (mkLeaf NodeType.LeftOperand "name")
            ++ (if false then " NOT LIKE ?" else " LIKE ?") ++ " ESCAPE '\\'")
          (.gstr (affixPat "contains" (A ++ "\\%" ++ B))))), none))) := by
  refine ⟨by decide, ?_⟩
  exact (C3_like_pattern_escape DbType.SQLite idTrans none operatorTranslation
    gormqonvertTranslation gormqonvertTranslationReversed false "contains"
    (mkLeaf NodeType.LeftOperand "name") "a%b" (by decide) (by decide) (by decide)).2

/-- C3 counterexample: for a quoted literal containing a newline
(`contains(name,'a\nb')`), RE2's `.` does not match the newline, the
`'(.*)'` replacement is a no-op, and the program binds the still-quoted
literal `'a\nb'` with no `%` affixes — not the claimed pattern `%a\nb%`. -/
theorem C3_like_pattern_counterexample :
    buildGormQuery (.node NodeType.Operator "contains"
        (some (mkLeaf NodeType.LeftOperand "name"))
        (some (mkLeaf NodeType.RightOperand "'a\nb'"))) none DbType.SQLite
        operatorTranslation gormqonvertTranslation gormqonvertTranslationReversed idTrans
        false
      = (some (Cond.frag "name LIKE ?" (GVal.gstr "'a\nb'")), none) ∧
    ("'a\nb'" : String) ≠ "%a\nb%" :=
  ⟨rfl, by decide⟩

/- ### C8 amended -/

theorem lookup_setK_self (m : List (String × String)) (k v : String) :
    (setK m k v).lookup k = some v := by
  induction m with
  | nil => simp [setK, List.lookup]
  | cons p rest ih =>
      obtain ⟨k2, v2⟩ := p
      by_cases h : k2 = k
      · subst h
        simp [setK, List.lookup]
      · have hb : (k == k2) = false := beq_eq_false_iff_ne.mpr (fun hh => h hh.symm)
        simp [setK, if_neg h, List.lookup, hb, ih]

theorem lookup_setK_other (m : List (String × String)) (k v k2 : String) (h : k2 ≠ k) :
    (setK m k v).lookup k2 = m.lookup k2 := by
  have hb : (k2 == k) = false := beq_eq_false_iff_ne.mpr h
  induction m with
  | nil => simp [setK, List.lookup, hb]
  | cons p rest ih =>
      obtain ⟨k3, v3⟩ := p
      by_cases h3 : k3 = k
      · subst h3
        simp [setK, List.lookup, hb]
      · simp only [setK, if_neg h3]
        cases hk : (k2 == k3) <;> simp [List.lookup, hk, ih]

theorem lookupD_setK_self (m : List (String × String)) (k v : String) :
    lookupD (setK m k v) k = v := by
  simp [lookupD, lookup_setK_self]

theorem lookupD_setK_other (m : List (String × String)) (k v k2 : String) (h : k2 ≠ k) :
    lookupD (setK m k v) k2 = lookupD m k2 := by
  simp [lookupD, lookup_setK_other m k v k2 h]

theorem populateFwd_lookups (cfg : CharacterConfig) (m : List (String × String)) :
    lookupD (populateFwd cfg m) "gt" = cfg.gtPfx ∧
    lookupD (populateFwd cfg m) "ge" = cfg.gePfx ∧
    lookupD (populateFwd cfg m) "lt" = cfg.ltPfx ∧
    lookupD (populateFwd cfg m) "le" = cfg.lePfx ∧
    lookupD (populateFwd cfg m) "ne" = cfg.nePfx ∧
    lookupD (populateFwd cfg m) "contains" = cfg.likePfx ∧
    lookupD (populateFwd cfg m) "startswith" = cfg.likePfx ∧
    lookupD (populateFwd cfg m) "endswith" = cfg.likePfx := by
  simp only [populateFwd]
  refine ⟨?_, ?_, ?_, ?_, ?_, ?_, ?_, ?_⟩ <;>
    simp [lookupD_setK_self, lookupD_setK_other]

theorem populateRev_lookups (cfg : CharacterConfig) (m : List (String × String)) :
    lookupD (populateRev cfg m) "gt" = cfg.ltPfx ∧
    lookupD (populateRev cfg m) "ge" = cfg.lePfx ∧
    lookupD (populateRev cfg m) "lt" = cfg.gtPfx ∧
    lookupD (populateRev cfg m) "le" = cfg.gePfx ∧
    lookupD (populateRev cfg m) "ne" = "" ∧
    lookupD (populateRev cfg m) "contains" = cfg.notLikePfx ∧
    lookupD (populateRev cfg m) "startswith" = cfg.notLikePfx ∧
    lookupD (populateRev cfg m) "endswith" = cfg.notLikePfx := by
  simp only [populateRev]
  refine ⟨?_, ?_, ?_, ?_, ?_, ?_, ?_, ?_⟩ <;>
    simp [lookupD_setK_self, lookupD_setK_other]

theorem checkDbPlugins_first_call (cfg : CharacterConfig) (st : PluginState)
    (hreg : st.qonvertRegistered = true)
    (hf : st.cache.lookup "gormqonvertTranslation" = none)
    (hr : st.cache.lookup "gormqonvertTranslationReversed" = none) :
    checkDbPlugins cfg st =
      { st with
          deepRegistered := st.deepRegistered || true,
          gqTrans := populateFwd cfg st.gqTrans,
          gqTransRev := populateRev cfg st.gqTransRev,
          cache := ("gormqonvertTranslationReversed", populateRev cfg st.gqTransRev)
            :: st.cache } := by
  obtain ⟨c, g, gr, d, q⟩ := st
  simp only at hreg hf hr
  subst hreg
  cases d <;> simp [checkDbPlugins, hf, hr]

/-- C8 (amended): on the first build call with the prefix-value collaborator
already registered, `checkDbPlugins` reads the seven configured prefix tokens
and populates both the forward and the reversed prefix table from them, but
stores only the reversed table in the process-wide cache; a subsequent call
reads the reversed table from the cache while the forward table is populated
from the collaborator's configuration again (with identical contents). -/
theorem checkDbPlugins_rev_cache_hit (cfg : CharacterConfig) (st2 : PluginState)
    (mrev : List (String × String))
    (hreg2 : st2.qonvertRegistered = true)
    (hf2 : st2.cache.lookup "gormqonvertTranslation" = none)
    (hr2 : st2.cache.lookup "gormqonvertTranslationReversed" = some mrev) :
    (checkDbPlugins cfg st2).gqTrans = populateFwd cfg st2.gqTrans ∧
    (checkDbPlugins cfg st2).gqTransRev = mrev := by
  obtain ⟨c, g, gr, d, q⟩ := st2
  simp only at hreg2 hf2 hr2
  subst hreg2
  cases d <;> simp [checkDbPlugins, hf2, hr2]

/-- C8 (amended): on the first build call with the prefix-value collaborator
already registered, `checkDbPlugins` reads the seven configured prefix tokens
and populates both the forward and the reversed prefix table from them, but
stores only the reversed table in the process-wide cache; a subsequent call
reads the reversed table from the cache while the forward table is populated
from the collaborator's configuration again (with identical contents). -/
theorem C8_prefix_cache_amended (cfg : CharacterConfig) (st : PluginState)
    (hreg : st.qonvertRegistered = true)
    (hf : st.cache.lookup "gormqonvertTranslation" = none)
    (hr : st.cache.lookup "gormqonvertTranslationReversed" = none) :
    (checkDbPlugins cfg st).gqTrans = populateFwd cfg st.gqTrans ∧
    (checkDbPlugins cfg st).gqTransRev = populateRev cfg st.gqTransRev ∧
    lookupD (checkDbPlugins cfg st).gqTrans "gt" = cfg.gtPfx ∧
    lookupD (checkDbPlugins cfg st).gqTrans "ne" = cfg.nePfx ∧
    lookupD (checkDbPlugins cfg st).gqTrans "contains" = cfg.likePfx ∧
    lookupD (checkDbPlugins cfg st).gqTransRev "gt" = cfg.ltPfx ∧
    lookupD (checkDbPlugins cfg st).gqTransRev "ne" = "" ∧
    lookupD (checkDbPlugins cfg st).gqTransRev "contains" = cfg.notLikePfx ∧
    (checkDbPlugins cfg st).cache.lookup "gormqonvertTranslation" = none ∧
    (checkDbPlugins cfg st).cache.lookup "gormqonvertTranslationReversed"
      = some ((checkDbPlugins cfg st).gqTransRev) ∧
    (checkDbPlugins cfg (checkDbPlugins cfg st)).gqTrans
      = populateFwd cfg (checkDbPlugins cfg st).gqTrans ∧
    (checkDbPlugins cfg (checkDbPlugins cfg st)).gqTransRev
      = (checkDbPlugins cfg st).gqTransRev := by
  have h1 := checkDbPlugins_first_call cfg st hreg hf hr
  have hq1 : (checkDbPlugins cfg st).qonvertRegistered = true := by
    rw [h1]; exact hreg
  have hc1f : (checkDbPlugins cfg st).cache.lookup "gormqonvertTranslation" = none := by
    rw [h1]
    simp [List.lookup, hf]
  have hc1r : (checkDbPlugins cfg st).cache.lookup "gormqonvertTranslationReversed"
      = some (populateRev cfg st.gqTransRev) := by
    rw [h1]
    simp [List.lookup]
  have hg1 : (checkDbPlugins cfg st).gqTrans = populateFwd cfg st.gqTrans := by
    rw [h1]
  have hgr1 : (checkDbPlugins cfg st).gqTransRev = populateRev cfg st.gqTransRev := by
    rw [h1]
  have hsecond := checkDbPlugins_rev_cache_hit cfg (checkDbPlugins cfg st)
    (populateRev cfg st.gqTransRev) hq1 hc1f hc1r
  refine ⟨hg1, hgr1, ?_, ?_, ?_, ?_, ?_, ?_, hc1f, ?_, hsecond.1, ?_⟩
  · rw [hg1]; exact (populateFwd_lookups cfg st.gqTrans).1
  · rw [hg1]; exact (populateFwd_lookups cfg st.gqTrans).2.2.2.2.1
  · rw [hg1]; exact (populateFwd_lookups cfg st.gqTrans).2.2.2.2.2.1
  · rw [hgr1]; exact (populateRev_lookups cfg st.gqTransRev).1
  · rw [hgr1]; exact (populateRev_lookups cfg st.gqTransRev).2.2.2.2.1
  · rw [hgr1]; exact (populateRev_lookups cfg st.gqTransRev).2.2.2.2.2.1
  · rw [hc1r, hgr1]
  · rw [hsecond.2, hgr1]

/-- Witness for C8 (amended): the concrete first-call state and configuration
of the counterexample. -/
theorem C8_prefix_cache_amended_witness :
    exPluginState.qonvertRegistered = true ∧
    (checkDbPlugins exConfig exPluginState).gqTrans
      = populateFwd exConfig exPluginState.gqTrans ∧
    lookupD (checkDbPlugins exConfig exPluginState).gqTransRev "contains"
      = exConfig.notLikePfx :=
  ⟨by decide,
   (C8_prefix_cache_amended exConfig exPluginState (by decide) rfl rfl).1,
   (C8_prefix_cache_amended exConfig exPluginState (by decide) rfl rfl).2.2.2.2.2.2.2.1⟩

/- ### C6 amended: the chain loop renders inside out -/

theorem node_size_pos (c : Node) : 1 ≤ c.size := by
  cases c with
  | node ty v l r =>
      cases l <;> cases r <;> (simp only [Node.size]; omega)

theorem nodeAt_child {t : Node} {q : Pos} {c : Node} {d : Dir} {x : Node}
    (h : nodeAt t q = some c) (hc : childOf d c = some x) : nodeAt t (d :: q) = some x := by
  simp [nodeAt, h, hc]

theorem str_ne_empty_of_data {s : String} {a : Char} {l : List Char}
    (h : s.data = a :: l) : s ≠ "" := by
  intro he
  rw [he] at h
  have h0 : ("" : String).data = [] := rfl
  rw [h0] at h
  cases h

theorem append_paren_ne_empty (x y : String) : x ++ "(" ++ y ++ ")" ≠ "" := by
  intro he
  have h : (x ++ "(" ++ y ++ ")").data = x.data ++ '(' :: (y.data ++ [')']) := by
    simp [String.data_append]
  rw [he] at h
  have h0 : ("" : String).data = [] := rfl
  rw [h0] at h
  exact absurd h.symm (by simp)

theorem size_left_lt (ty : NodeType) (v : String) (lc : Node) (r : Option Node) :
    lc.size < (Node.node ty v (some lc) r).size := by
  cases r <;> (simp [Node.size]; try omega)

theorem size_right_lt (ty : NodeType) (v : String) (l : Option Node) (rc : Node) :
    rc.size < (Node.node ty v l (some rc)).size := by
  cases l <;> (simp [Node.size]; try omega)

theorem suffix_eq_of_length {α : Type} {a b c : List α} (h1 : a <:+ c) (h2 : b <:+ c)
    (h : a.length = b.length) : a = b := by
  obtain ⟨u1, hu1⟩ := h1
  obtain ⟨u2, hu2⟩ := h2
  rw [← hu1] at hu2
  have hlen : u2.length = u1.length := by
    have e1 := congrArg List.length hu2
    simp at e1
    omega
  exact (List.append_inj_right hu2 hlen).symm

theorem size_node_ge_two (ty : NodeType) (v : String) (lc : Node) (r : Option Node) :
    2 ≤ (Node.node ty v (some lc) r).size := by
  have := node_size_pos lc
  have := size_left_lt ty v lc r
  omega

/-- Every entry of the unary-function table is either empty or does not start
with `%`, so substituting into a `%s` template never yields the empty
string. -/
def pctHeadSafe (t : String) : Bool :=
  match t.data with
  | [] => true
  | a :: _ => decide (a ≠ '%')

theorem lookupD_prop {P : String → Prop} (m : List (String × String)) (v : String)
    (hm : ∀ p ∈ m, P p.2) (hd : P "") : P (lookupD m v) := by
  induction m with
  | nil => exact hd
  | cons p rest ih =>
      obtain ⟨k1, v1⟩ := p
      simp only [lookupD, List.lookup]
      cases hv : v == k1 with
      | true => exact hm (k1, v1) (by simp)
      | false =>
          have := ih (fun p hp => hm p (by simp [hp]))
          simpa [lookupD] using this

theorem table_pctHeadSafe (databaseType : DbType) (v : String) :
    pctHeadSafe (lookupD (unaryFunctionTranslation databaseType) v) = true := by
  apply lookupD_prop (P := fun t => pctHeadSafe t = true)
  · cases databaseType <;> decide
  · decide

theorem sprintf1_ne_empty (t x : String) (ht : t ≠ "") (hs : pctHeadSafe t = true) :
    sprintf1 t x ≠ "" := by
  cases hd : t.data with
  | nil =>
      exact absurd (strExt (by simp [hd, String.data])) ht
  | cons a l =>
      have ha : a ≠ '%' := by
        simp only [pctHeadSafe, hd] at hs
        simpa using hs
      apply str_ne_empty_of_data (a := a) (l := sprintf1List x.data l)
      simp only [sprintf1, hd, sprintf1List]
      rw [if_neg (by simp [ha])]

theorem insideOutRender_ne_empty (databaseType : DbType) (colT : String → String)
    (c : Node) (hc : isChainB c = true) :
    insideOutRender databaseType colT c ≠ "" := by
  cases c with
  | node ty v l r =>
      cases l with
      | none => simp [isChainB] at hc
      | some lc =>
          by_cases hlc : lc.type = NodeType.UnaryOperator
          · simp only [insideOutRender, if_pos hlc]
            exact append_paren_ne_empty _ _
          · simp only [insideOutRender, if_neg hlc]
            by_cases hp : strHasChar (lookupD (unaryFunctionTranslation databaseType) v) '%'
              = true
            · rw [if_pos hp]
              apply sprintf1_ne_empty
              · intro he
                rw [he] at hp
                exact absurd hp (by decide)
              · exact table_pctHeadSafe databaseType v
            · rw [if_neg hp]
              exact append_paren_ne_empty _ _

theorem IterSteps.cast_n {σ ρ : Type} {f : σ → σ ⊕ ρ} {s s2 : σ} {n m : Nat}
    (h : IterSteps f s n s2) (hnm : n = m) : IterSteps f s m s2 := hnm ▸ h

theorem isChainB_unfold {ty : NodeType} {v : String} {lc : Node} {r : Option Node}
    (h : isChainB (.node ty v (some lc) r) = true) :
    ty = NodeType.UnaryOperator ∧ (lc.type = NodeType.UnaryOperator → isChainB lc = true) := by
  simp only [isChainB, Bool.and_eq_true, decide_eq_true_eq] at h
  refine ⟨h.1, fun hlc => ?_⟩
  have := h.2
  rw [if_pos hlc] at this
  exact this

/-- Simulation of the `buildUnaryFuncChain` loop on a well-formed chain:
starting at the chain's node with an untouched visited set and an empty
running string, the loop walks to the deepest unary node and ascends,
finishing one step above the start with the inside-out rendering as result,
having marked exactly positions inside the chain. -/
theorem ufc_chain_sim (databaseType : DbType) (colT : String → String) (t : Node) :
    ∀ (N : Nat) (c : Node), c.size ≤ N → ∀ (q : Pos) (V : List Pos),
      isChainB c = true → nodeAt t q = some c → (∀ p ∈ V, ¬ (q <:+ p)) →
      ∃ (n : Nat) (V2 : List Pos),
        IterSteps (ufcStep databaseType colT t) ⟨q, V, ""⟩ n
          ⟨q.tail, V2, insideOutRender databaseType colT c⟩ ∧
        n + 1 ≤ 2 * c.size ∧
        q ∈ V2 ∧ (∀ p ∈ V2, p ∈ V ∨ q <:+ p) ∧ (∀ p ∈ V, p ∈ V2) := by
  intro N
  induction N with
  | zero =>
      intro c hsz
      exact absurd (le_trans (node_size_pos c) hsz) (by omega)
  | succ M ih =>
      intro c hsz q V hchain hq hV
      obtain ⟨ty, v, l, r⟩ := c
      cases l with
      | none => simp [isChainB] at hchain
      | some lc =>
          obtain ⟨hty, hsub⟩ := isChainB_unfold hchain
          subst hty
          have hqV : ¬ q ∈ V := fun hin => hV q hin (List.suffix_refl q)
          by_cases hlc : lc.type = NodeType.UnaryOperator
          · -- the chain continues: descend, recurse, then wrap
            have hLV : ¬ (Dir.L :: q) ∈ V := fun hin =>
              hV _ hin (List.suffix_cons Dir.L q)
            have hstep1 : ufcStep databaseType colT t ⟨q, V, ""⟩
                = .inl ⟨Dir.L :: q, V, ""⟩ := by
              simp only [ufcStep, hq]
              rw [if_neg hqV, if_pos (by simp [Node.type]),
                if_pos (by simp [ufcDescend, Node.left, hlc, hLV])]
            have hq2 : nodeAt t (Dir.L :: q) = some lc :=
              nodeAt_child hq (by simp [childOf, Node.left])
            have hV2 : ∀ p ∈ V, ¬ ((Dir.L :: q) <:+ p) := fun p hp hsuf =>
              hV p hp ((List.suffix_cons Dir.L q).trans hsuf)
            have hlcsz : lc.size ≤ M := by
              have := size_left_lt NodeType.UnaryOperator v lc r
              omega
            obtain ⟨n1, V2, hsteps1, hb1, hmem1, hsub1, hpres1⟩ :=
              ih lc hlcsz (Dir.L :: q) V (hsub hlc) hq2 hV2
            have hqV2 : ¬ q ∈ V2 := by
              intro hin
              rcases hsub1 q hin with h1 | h1
              · exact hqV h1
              · have := h1.length_le
                simp at this
            have hrne := insideOutRender_ne_empty databaseType colT lc (hsub hlc)
            have hstep3 : ufcStep databaseType colT t
                ⟨q, V2, insideOutRender databaseType colT lc⟩
                = .inl ⟨q.tail, q :: V2,
                    insideOutRender databaseType colT
                      (.node NodeType.UnaryOperator v (some lc) r)⟩ := by
              simp only [ufcStep, hq]
              rw [if_neg hqV2, if_pos (by simp [Node.type]),
                if_neg (by simp [ufcDescend, Node.left, hlc, hmem1])]
              have hrender : insideOutRender databaseType colT
                  (.node NodeType.UnaryOperator v (some lc) r)
                  = lookupD (unaryFunctionTranslation databaseType) v ++ "(" ++
                    insideOutRender databaseType colT lc ++ ")" := by
                simp [insideOutRender, hlc]
              cases q with
              | nil => simp [if_neg hrne, hrender, Node.value]
              | cons d tl => simp [if_neg hrne, hrender, Node.value]
            refine ⟨n1 + 2, q :: V2, ?_, ?_, by simp, ?_, ?_⟩
            · have hlast : IterSteps (ufcStep databaseType colT t)
                  ⟨q, V2, insideOutRender databaseType colT lc⟩ 1
                  ⟨q.tail, q :: V2,
                    insideOutRender databaseType colT
                      (.node NodeType.UnaryOperator v (some lc) r)⟩ :=
                IterSteps.step _ _ _ 0 hstep3 (IterSteps.refl _)
              have hmid : IterSteps (ufcStep databaseType colT t)
                  ⟨Dir.L :: q, V, ""⟩ (n1 + 1)
                  ⟨q.tail, q :: V2,
                    insideOutRender databaseType colT
                      (.node NodeType.UnaryOperator v (some lc) r)⟩ := by
                have := hsteps1.trans hlast
                simpa using this
              exact IterSteps.step _ _ _ (n1 + 1) hstep1 hmid
            · have := size_left_lt NodeType.UnaryOperator v lc r
              omega
            · intro p hp
              rcases List.mem_cons.mp hp with rfl | hp2
              · exact Or.inr (List.suffix_refl p)
              · rcases hsub1 p hp2 with h1 | h1
                · exact Or.inl h1
                · exact Or.inr ((List.suffix_cons Dir.L q).trans h1)
            · intro p hp
              exact List.mem_cons_of_mem _ (hpres1 p hp)
          · -- the deepest unary node: mark it and emit the base rendering
            have hstep : ufcStep databaseType colT t ⟨q, V, ""⟩
                = .inl ⟨q.tail, q :: V,
                    insideOutRender databaseType colT
                      (.node NodeType.UnaryOperator v (some lc) r)⟩ := by
              simp only [ufcStep, hq]
              rw [if_neg hqV, if_pos (by simp [Node.type]),
                if_neg (by simp [ufcDescend, Node.left, hlc])]
              have hrender : insideOutRender databaseType colT
                  (.node NodeType.UnaryOperator v (some lc) r)
                  = if strHasChar (lookupD (unaryFunctionTranslation databaseType) v) '%'
                      then sprintf1 (lookupD (unaryFunctionTranslation databaseType) v)
                        (colT lc.value)
                    else lookupD (unaryFunctionTranslation databaseType) v ++ "(" ++
                      colT lc.value ++ ")" := by
                simp [insideOutRender, hlc]
              cases q with
              | nil => simp [hrender, Node.value, leftChildValue, Node.left]
              | cons d tl => simp [hrender, Node.value, leftChildValue, Node.left]
            refine ⟨1, q :: V, IterSteps.step _ _ _ 0 hstep (IterSteps.refl _), ?_,
              by simp, ?_, ?_⟩
            · have := size_node_ge_two NodeType.UnaryOperator v lc r
              omega
            · intro p hp
              rcases List.mem_cons.mp hp with rfl | hp2
              · exact Or.inr (List.suffix_refl p)
              · exact Or.inl hp2
            · intro p hp
              exact List.mem_cons_of_mem _ hp

/-- C6 (amended): on every well-formed unary-function chain,
`buildUnaryFuncChain` produces exactly the inside-out rendering: the innermost
function is applied to the (naming-strategy translated) innermost child's
value first, and each enclosing function wraps the running string — never the
outer function before an inner one. -/
theorem C6_unaryChain_insideOut (databaseType : DbType) (colT : String → String)
    (c : Node) (hc : isChainB c = true) :
    buildUnaryFuncChain databaseType colT c = insideOutRender databaseType colT c := by
  obtain ⟨n, V2, hsteps, hb, hqin, _, _⟩ :=
    ufc_chain_sim databaseType colT c c.size c (le_refl _) [] [] hc rfl (by simp)
  simp only [List.tail_nil] at hsteps
  have hrun := iterRun_of_steps hsteps (2 * c.size + 2 - n)
  have hn : n + (2 * c.size + 2 - n) = 2 * c.size + 2 := by omega
  rw [hn] at hrun
  obtain ⟨k, hk⟩ : ∃ k, 2 * c.size + 2 - n = k + 1 := ⟨2 * c.size + 1 - n, by omega⟩
  have hexit : ufcStep databaseType colT c
      ⟨[], V2, insideOutRender databaseType colT c⟩
      = .inr (insideOutRender databaseType colT c) := by
    simp only [ufcStep, nodeAt]
    rw [if_pos hqin]
  have hvalue : iterRun (ufcStep databaseType colT c) (2 * c.size + 2)
      ⟨[], [], ""⟩ = some (insideOutRender databaseType colT c) := by
    rw [hrun, hk]
    simp only [iterRun, hexit]
  simp only [buildUnaryFuncChain, hvalue]

/-- Witness for C6 (amended): `length(trim(toupper(testValue)))` is a chain
and renders as `LENGTH(TRIM(UPPER(testValue)))` with the identity naming
strategy. -/
theorem C6_unaryChain_insideOut_witness :
    isChainB exChain3 = true ∧
    buildUnaryFuncChain DbType.SQLite idTrans exChain3
      = insideOutRender DbType.SQLite idTrans exChain3 ∧
    insideOutRender DbType.SQLite idTrans exChain3 = "LENGTH(TRIM(UPPER(testValue)))" :=
  ⟨by decide, C6_unaryChain_insideOut DbType.SQLite idTrans exChain3 (by decide), by decide⟩

/- ### C5 / C10: simulation of the `validateQuery` traversal -/

/-- The depth after the mark-and-ascend step at position `q`: at the root the
loop stays (the parent pointer is nil), below it the depth decreases. -/
def dAfter (q : Pos) (d : Int) : Int :=
  match q with
  | [] => d
  | _ :: _ => d - 1

/-- The shape of every error `validateQuery` can return. -/
def errShape (maxTreeDepth : Int) (columnNamesList : List String) (e : String) : Prop :=
  (∃ dd : Int, maxTreeDepth > 0 ∧ dd > maxTreeDepth ∧ e = depthMsg dd maxTreeDepth) ∨
  (∃ cn, ¬ cn ∈ columnNamesList ∧ e = colMsg cn)

/-- The conclusion of the traversal simulation at one subtree: when the
subtree is clean the loop marks it completely and ascends past its root; when
it is not, the loop exits with an error of the documented shape. -/
abbrev ValConcl (t : Node) (maxTreeDepth : Int) (columnNamesList : List String)
    (nameOf : String → String) (c : Node) (q : Pos) (d : Int) (V : List Pos) : Prop :=
  (validOkB maxTreeDepth columnNamesList nameOf c d (parentValueAt t q) = true →
    ∃ (n : Nat) (V2 : List Pos),
      IterSteps (valStep t maxTreeDepth columnNamesList nameOf) ⟨q, d, V⟩ n
        ⟨q.tail, dAfter q d, V2⟩ ∧
      n + 1 ≤ 2 * c.size ∧ q ∈ V2 ∧ (∀ p ∈ V2, p ∈ V ∨ q <:+ p) ∧ (∀ p ∈ V, p ∈ V2)) ∧
  (validOkB maxTreeDepth columnNamesList nameOf c d (parentValueAt t q) = false →
    ∃ (n : Nat) (s2 : VState) (e : String),
      IterSteps (valStep t maxTreeDepth columnNamesList nameOf) ⟨q, d, V⟩ n s2 ∧
      valStep t maxTreeDepth columnNamesList nameOf s2 = .inr (some e) ∧
      n + 1 ≤ 2 * c.size ∧ errShape maxTreeDepth columnNamesList e)

theorem suffix_cons_not (a : Dir) (q : Pos) : ¬ ((a :: q) <:+ q) := by
  intro h
  have := h.length_le
  simp at this

theorem parentValueAt_child {t : Node} {q : Pos} {c : Node} (dir : Dir)
    (h : nodeAt t q = some c) : parentValueAt t (dir :: q) = some c.value := by
  simp [parentValueAt, h]

theorem depthOkNode_true {maxTreeDepth d : Int} (h : ¬ (maxTreeDepth > 0 ∧ d > maxTreeDepth)) :
    depthOkNode maxTreeDepth d = true := by
  simp only [depthOkNode, Bool.or_eq_true, Bool.not_eq_true', decide_eq_true_eq,
    decide_eq_false_iff_not, not_lt]
  omega

theorem depthOkNode_false {maxTreeDepth d : Int} (h : maxTreeDepth > 0 ∧ d > maxTreeDepth) :
    depthOkNode maxTreeDepth d = false := by
  simp only [depthOkNode, Bool.or_eq_false_iff, Bool.not_eq_false', decide_eq_true_eq,
    decide_eq_false_iff_not, not_le]
  omega

theorem valStep_depthError (t : Node) (maxTreeDepth : Int) (columnNamesList : List String)
    (nameOf : String → String) (ty : NodeType) (v : String) (l r : Option Node)
    (q : Pos) (d : Int) (V : List Pos)
    (hq : nodeAt t q = some (.node ty v l r)) (hqV : ¬ q ∈ V)
    (hdepth : maxTreeDepth > 0 ∧ d > maxTreeDepth) :
    valStep t maxTreeDepth columnNamesList nameOf ⟨q, d, V⟩
      = .inr (some (depthMsg d maxTreeDepth)) := by
  simp only [valStep, hq]
  rw [if_neg hqV, if_pos hdepth]

theorem valStep_descend_L (t : Node) (maxTreeDepth : Int) (columnNamesList : List String)
    (nameOf : String → String) (ty : NodeType) (v : String) (l r : Option Node)
    (q : Pos) (d : Int) (V : List Pos)
    (hq : nodeAt t q = some (.node ty v l r)) (hqV : ¬ q ∈ V)
    (hdepth : ¬ (maxTreeDepth > 0 ∧ d > maxTreeDepth))
    (hcond : (ty = NodeType.Operator ∨ ty = NodeType.UnaryOperator) ∧ l.isSome ∧
      ¬ (Dir.L :: q) ∈ V) :
    valStep t maxTreeDepth columnNamesList nameOf ⟨q, d, V⟩
      = .inl ⟨Dir.L :: q, d + 1, V⟩ := by
  simp only [valStep, hq, Node.type, Node.left, Node.right, Node.value]
  rw [if_neg hqV, if_neg hdepth, if_pos hcond]

theorem valStep_descend_R (t : Node) (maxTreeDepth : Int) (columnNamesList : List String)
    (nameOf : String → String) (ty : NodeType) (v : String) (l r : Option Node)
    (q : Pos) (d : Int) (V : List Pos)
    (hq : nodeAt t q = some (.node ty v l r)) (hqV : ¬ q ∈ V)
    (hdepth : ¬ (maxTreeDepth > 0 ∧ d > maxTreeDepth))
    (hnoL : ¬ ((ty = NodeType.Operator ∨ ty = NodeType.UnaryOperator) ∧ l.isSome ∧
      ¬ (Dir.L :: q) ∈ V))
    (hcond : (ty = NodeType.Operator ∨ ty = NodeType.UnaryOperator) ∧ r.isSome ∧
      ¬ (Dir.R :: q) ∈ V) :
    valStep t maxTreeDepth columnNamesList nameOf ⟨q, d, V⟩
      = .inl ⟨Dir.R :: q, d + 1, V⟩ := by
  simp only [valStep, hq, Node.type, Node.left, Node.right, Node.value]
  rw [if_neg hqV, if_neg hdepth, if_neg hnoL, if_pos hcond]

theorem valStep_colError (t : Node) (maxTreeDepth : Int) (columnNamesList : List String)
    (nameOf : String → String) (v : String) (l r : Option Node)
    (q : Pos) (d : Int) (V : List Pos)
    (hq : nodeAt t q = some (.node NodeType.LeftOperand v l r)) (hqV : ¬ q ∈ V)
    (hdepth : ¬ (maxTreeDepth > 0 ∧ d > maxTreeDepth))
    (hpv : parentValueAt t q ≠ some "concat")
    (hcol : ¬ resolveColumn nameOf v ∈ columnNamesList) :
    valStep t maxTreeDepth columnNamesList nameOf ⟨q, d, V⟩
      = .inr (some (colMsg (resolveColumn nameOf v))) := by
  simp only [valStep, hq, Node.type, Node.left, Node.right, Node.value]
  rw [if_neg hqV, if_neg hdepth, if_neg (by rintro ⟨h1 | h1, -⟩ <;> cases h1),
    if_neg (by rintro ⟨h1 | h1, -⟩ <;> cases h1), if_pos (by exact ⟨by trivial, hpv, hcol⟩)]

theorem valStep_mark (t : Node) (maxTreeDepth : Int) (columnNamesList : List String)
    (nameOf : String → String) (ty : NodeType) (v : String) (l r : Option Node)
    (q : Pos) (d : Int) (V : List Pos)
    (hq : nodeAt t q = some (.node ty v l r)) (hqV : ¬ q ∈ V)
    (hdepth : ¬ (maxTreeDepth > 0 ∧ d > maxTreeDepth))
    (hnoL : ¬ ((ty = NodeType.Operator ∨ ty = NodeType.UnaryOperator) ∧ l.isSome ∧
      ¬ (Dir.L :: q) ∈ V))
    (hnoR : ¬ ((ty = NodeType.Operator ∨ ty = NodeType.UnaryOperator) ∧ r.isSome ∧
      ¬ (Dir.R :: q) ∈ V))
    (hnoCol : ¬ (ty = NodeType.LeftOperand ∧ parentValueAt t q ≠ some "concat" ∧
      ¬ resolveColumn nameOf v ∈ columnNamesList)) :
    valStep t maxTreeDepth columnNamesList nameOf ⟨q, d, V⟩
      = .inl ⟨q.tail, dAfter q d, q :: V⟩ := by
  simp only [valStep, hq, Node.type, Node.left, Node.right, Node.value]
  rw [if_neg hqV, if_neg hdepth, if_neg hnoL, if_neg hnoR, if_neg hnoCol]
  cases q <;> simp [dAfter]

theorem valStep_visited (t : Node) (maxTreeDepth : Int) (columnNamesList : List String)
    (nameOf : String → String) (q : Pos) (d : Int) (V : List Pos) (hqV : q ∈ V) :
    valStep t maxTreeDepth columnNamesList nameOf ⟨q, d, V⟩ = .inr none := by
  simp only [valStep]
  cases nodeAt t q with
  | none => rfl
  | some n => simp [hqV]

/-- The validity of an optional child subtree at the next depth. -/
def childOkB (maxTreeDepth : Int) (columnNamesList : List String)
    (nameOf : String → String) (d : Int) (v : String) : Option Node → Bool
  | some ct => validOkB maxTreeDepth columnNamesList nameOf ct (d + 1) (some v)
  | none => true

/-- The size of an optional child subtree. -/
def childSize : Option Node → Nat
  | some ct => ct.size
  | none => 0

theorem validOkB_op (maxTreeDepth : Int) (columnNamesList : List String)
    (nameOf : String → String) (ty : NodeType) (v : String) (l r : Option Node)
    (d : Int) (pv : Option String)
    (hop : ty = NodeType.Operator ∨ ty = NodeType.UnaryOperator) :
    validOkB maxTreeDepth columnNamesList nameOf (.node ty v l r) d pv =
      (depthOkNode maxTreeDepth d &&
        (childOkB maxTreeDepth columnNamesList nameOf d v l &&
         childOkB maxTreeDepth columnNamesList nameOf d v r)) := by
  rcases hop with rfl | rfl <;> (rw [validOkB.eq_def]; cases l <;> cases r <;> rfl)

theorem validOkB_leftOperand (maxTreeDepth : Int) (columnNamesList : List String)
    (nameOf : String → String) (v : String) (l r : Option Node) (d : Int)
    (pv : Option String) :
    validOkB maxTreeDepth columnNamesList nameOf (.node NodeType.LeftOperand v l r) d pv =
      (depthOkNode maxTreeDepth d &&
        (if pv ≠ some "concat" then decide (resolveColumn nameOf v ∈ columnNamesList)
         else true)) := by
  rw [validOkB.eq_def]

theorem validOkB_rightOperand (maxTreeDepth : Int) (columnNamesList : List String)
    (nameOf : String → String) (v : String) (l r : Option Node) (d : Int)
    (pv : Option String) :
    validOkB maxTreeDepth columnNamesList nameOf (.node NodeType.RightOperand v l r) d pv =
      depthOkNode maxTreeDepth d := by
  rw [validOkB.eq_def]
  simp

/-- Simulation of the `validateQuery` loop over one subtree: on a clean
subtree the traversal marks every reachable node and ascends past the
subtree's root; otherwise it exits with a depth or unknown-column error. -/
theorem val_sim (t : Node) (maxTreeDepth : Int) (columnNamesList : List String)
    (nameOf : String → String) :
    ∀ (N : Nat) (c : Node), c.size ≤ N → ∀ (q : Pos) (d : Int) (V : List Pos),
      nodeAt t q = some c → (∀ p ∈ V, ¬ (q <:+ p)) →
      ValConcl t maxTreeDepth columnNamesList nameOf c q d V := by
  intro N
  induction N with
  | zero =>
      intro c hsz
      exact absurd (le_trans (node_size_pos c) hsz) (by omega)
  | succ M ih =>
      intro c hsz q d V hq hV
      obtain ⟨ty, v, l, r⟩ := c
      have hqV : ¬ q ∈ V := fun hin => hV q hin (List.suffix_refl q)
      have hsize : (Node.node ty v l r).size = 1 + childSize l + childSize r := by
        cases l <;> cases r <;> rfl
      by_cases hdepth : maxTreeDepth > 0 ∧ d > maxTreeDepth
      · have hstep := valStep_depthError t maxTreeDepth columnNamesList nameOf ty v l r q d V
          hq hqV hdepth
        have hbad : validOkB maxTreeDepth columnNamesList nameOf (.node ty v l r) d
            (parentValueAt t q) = false := by
          have hd := depthOkNode_false hdepth
          cases ty <;> (rw [validOkB.eq_def]; simp [hd])
        constructor
        · intro hok
          rw [hok] at hbad
          cases hbad
        · intro _
          refine ⟨0, ⟨q, d, V⟩, depthMsg d maxTreeDepth, IterSteps.refl _, hstep, ?_,
            Or.inl ⟨d, hdepth.1, hdepth.2, rfl⟩⟩
          have := node_size_pos (Node.node ty v l r)
          omega
      · by_cases hop : ty = NodeType.Operator ∨ ty = NodeType.UnaryOperator
        · -- operator node: left phase, right phase, then mark and ascend
          have hdOk := depthOkNode_true hdepth
          have hvEq := validOkB_op maxTreeDepth columnNamesList nameOf ty v l r d
            (parentValueAt t q) hop
          have phaseL :
              (childOkB maxTreeDepth columnNamesList nameOf d v l = true →
                ∃ (n1 : Nat) (VL : List Pos),
                  IterSteps (valStep t maxTreeDepth columnNamesList nameOf) ⟨q, d, V⟩ n1
                    ⟨q, d, VL⟩ ∧
                  n1 ≤ 2 * childSize l ∧
                  (∀ lt, l = some lt → (Dir.L :: q) ∈ VL) ∧
                  (∀ p ∈ VL, p ∈ V ∨ (Dir.L :: q) <:+ p) ∧ (∀ p ∈ V, p ∈ VL)) ∧
              (childOkB maxTreeDepth columnNamesList nameOf d v l = false →
                ∃ (n1 : Nat) (s2 : VState) (e : String),
                  IterSteps (valStep t maxTreeDepth columnNamesList nameOf) ⟨q, d, V⟩ n1 s2 ∧
                  valStep t maxTreeDepth columnNamesList nameOf s2 = .inr (some e) ∧
                  n1 ≤ 2 * childSize l ∧
                  errShape maxTreeDepth columnNamesList e) := by
            cases l with
            | none =>
                refine ⟨fun _ => ⟨0, V, IterSteps.refl _, by simp [childSize], ?_, ?_, ?_⟩,
                  fun h => by simp [childOkB] at h⟩
                · intro lt h
                  cases h
                · intro p hp
                  exact Or.inl hp
                · intro p hp
                  exact hp
            | some lt =>
                have hqL : nodeAt t (Dir.L :: q) = some lt :=
                  nodeAt_child hq (by simp [childOf, Node.left])
                have hVL : ∀ p ∈ V, ¬ ((Dir.L :: q) <:+ p) := fun p hp hsuf =>
                  hV p hp ((List.suffix_cons Dir.L q).trans hsuf)
                have hltsz : lt.size ≤ M := by
                  have := size_left_lt ty v lt r
                  omega
                have hdesc := valStep_descend_L t maxTreeDepth columnNamesList nameOf ty v
                  (some lt) r q d V hq hqV hdepth
                  ⟨hop, by simp, fun hin => hV _ hin (List.suffix_cons Dir.L q)⟩
                have hpv : parentValueAt t (Dir.L :: q) = some v := by
                  simpa [Node.value] using parentValueAt_child Dir.L hq
                have hih := ih lt hltsz (Dir.L :: q) (d + 1) V hqL hVL
                simp only [ValConcl] at hih
                rw [hpv] at hih
                constructor
                · intro hlok
                  rw [childOkB] at hlok
                  obtain ⟨n1, V2, hsteps, hb, hmem, hsub, hpres⟩ := hih.1 hlok
                  simp only [List.tail_cons, dAfter, add_sub_cancel_right] at hsteps
                  refine ⟨n1 + 1, V2, IterSteps.step _ _ _ n1 hdesc hsteps,
                    by simp only [childSize]; omega, ?_, hsub, hpres⟩
                  intro lt2 h2
                  cases h2
                  exact hmem
                · intro hlbad
                  rw [childOkB] at hlbad
                  obtain ⟨n1, s2, e, hsteps, hexit, hb, hshape⟩ := hih.2 hlbad
                  exact ⟨n1 + 1, s2, e, IterSteps.step _ _ _ n1 hdesc hsteps, hexit,
                    by simp only [childSize]; omega, hshape⟩
          have phaseR :
              ∀ (W : List Pos),
                (∀ lt, l = some lt → (Dir.L :: q) ∈ W) →
                (∀ p ∈ W, p ∈ V ∨ (Dir.L :: q) <:+ p) →
                (∀ p ∈ V, p ∈ W) →
                (childOkB maxTreeDepth columnNamesList nameOf d v r = true →
                  ∃ (n2 : Nat) (VR : List Pos),
                    IterSteps (valStep t maxTreeDepth columnNamesList nameOf) ⟨q, d, W⟩ n2
                      ⟨q, d, VR⟩ ∧
                    n2 ≤ 2 * childSize r ∧
                    (∀ rt, r = some rt → (Dir.R :: q) ∈ VR) ∧
                    (∀ p ∈ W, p ∈ VR) ∧
                    (∀ p ∈ VR, p ∈ W ∨ (Dir.R :: q) <:+ p)) ∧
                (childOkB maxTreeDepth columnNamesList nameOf d v r = false →
                  ∃ (n2 : Nat) (s2 : VState) (e : String),
                    IterSteps (valStep t maxTreeDepth columnNamesList nameOf) ⟨q, d, W⟩ n2 s2 ∧
                    valStep t maxTreeDepth columnNamesList nameOf s2 = .inr (some e) ∧
                    n2 ≤ 2 * childSize r ∧
                    errShape maxTreeDepth columnNamesList e) := by
            intro W hdoneL hsubW hpresW
            have hqW : ¬ q ∈ W := by
              intro hin
              rcases hsubW q hin with h | h
              · exact hqV h
              · exact suffix_cons_not _ _ h
            have hnoLW : ¬ ((ty = NodeType.Operator ∨ ty = NodeType.UnaryOperator) ∧
                l.isSome ∧ ¬ (Dir.L :: q) ∈ W) := by
              rintro ⟨-, hsome, hnin⟩
              cases hl2 : l with
              | none => rw [hl2] at hsome; cases hsome
              | some lt => exact hnin (hdoneL lt hl2)
            cases r with
            | none =>
                refine ⟨fun _ => ⟨0, W, IterSteps.refl _, by simp [childSize], ?_, ?_, ?_⟩,
                  fun h => by simp [childOkB] at h⟩
                · intro rt h
                  cases h
                · intro p hp
                  exact hp
                · intro p hp
                  exact Or.inl hp
            | some rt =>
                have hqR : nodeAt t (Dir.R :: q) = some rt :=
                  nodeAt_child hq (by simp [childOf, Node.right])
                have hRnotinW : ¬ (Dir.R :: q) ∈ W := by
                  intro hin
                  rcases hsubW _ hin with h | h
                  · exact hV _ h (List.suffix_cons Dir.R q)
                  · have := suffix_eq_of_length h (List.suffix_refl _) (by simp)
                    cases this
                have hVR : ∀ p ∈ W, ¬ ((Dir.R :: q) <:+ p) := by
                  intro p hp hsuf
                  rcases hsubW p hp with h | h
                  · exact hV p h ((List.suffix_cons Dir.R q).trans hsuf)
                  · have := suffix_eq_of_length h hsuf (by simp)
                    cases this
                have hrtsz : rt.size ≤ M := by
                  have := size_right_lt ty v l rt
                  omega
                have hdesc := valStep_descend_R t maxTreeDepth columnNamesList nameOf ty v
                  l (some rt) q d W hq hqW hdepth hnoLW ⟨hop, by simp, hRnotinW⟩
                have hpv : parentValueAt t (Dir.R :: q) = some v := by
                  simpa [Node.value] using parentValueAt_child Dir.R hq
                have hih := ih rt hrtsz (Dir.R :: q) (d + 1) W hqR hVR
                simp only [ValConcl] at hih
                rw [hpv] at hih
                constructor
                · intro hrok
                  rw [childOkB] at hrok
                  obtain ⟨n2, V2, hsteps, hb, hmem, hsub, hpres⟩ := hih.1 hrok
                  simp only [List.tail_cons, dAfter, add_sub_cancel_right] at hsteps
                  refine ⟨n2 + 1, V2, IterSteps.step _ _ _ n2 hdesc hsteps,
                    by simp only [childSize]; omega, ?_, hpres, hsub⟩
                  intro rt2 h2
                  cases h2
                  exact hmem
                · intro hrbad
                  rw [childOkB] at hrbad
                  obtain ⟨n2, s2, e, hsteps, hexit, hb, hshape⟩ := hih.2 hrbad
                  exact ⟨n2 + 1, s2, e, IterSteps.step _ _ _ n2 hdesc hsteps, hexit,
                    by simp only [childSize]; omega, hshape⟩
          constructor
          · intro hok
            rw [hvEq, hdOk, Bool.true_and, Bool.and_eq_true] at hok
            obtain ⟨hl, hr⟩ := hok
            obtain ⟨n1, VL, hst1, hb1, hdone1, hsub1, hpres1⟩ := phaseL.1 hl
            obtain ⟨n2, VR, hst2, hb2, hdoneR, hpres2, hsub2⟩ :=
              (phaseR VL hdone1 hsub1 hpres1).1 hr
            have hsubVR : ∀ p ∈ VR, p ∈ V ∨ (Dir.L :: q) <:+ p ∨ (Dir.R :: q) <:+ p := by
              intro p hp
              rcases hsub2 p hp with h | h
              · rcases hsub1 p h with h2 | h2
                · exact Or.inl h2
                · exact Or.inr (Or.inl h2)
              · exact Or.inr (Or.inr h)
            have hqVR : ¬ q ∈ VR := by
              intro hin
              rcases hsubVR q hin with h | h | h
              · exact hqV h
              · exact suffix_cons_not _ _ h
              · exact suffix_cons_not _ _ h
            have hmark := valStep_mark t maxTreeDepth columnNamesList nameOf ty v l r q d VR
              hq hqVR hdepth
              (by
                rintro ⟨-, hsome, hnin⟩
                cases hl2 : l with
                | none => rw [hl2] at hsome; cases hsome
                | some lt => exact hnin (hpres2 _ (hdone1 lt hl2)))
              (by
                rintro ⟨-, hsome, hnin⟩
                cases hr2 : r with
                | none => rw [hr2] at hsome; cases hsome
                | some rt => exact hnin (hdoneR rt hr2))
              (by
                rintro ⟨h1, -⟩
                rcases hop with rfl | rfl <;> cases h1)
            refine ⟨n1 + n2 + 1, q :: VR, ?_, by omega, by simp, ?_, ?_⟩
            · have hend : IterSteps (valStep t maxTreeDepth columnNamesList nameOf)
                  ⟨q, d, VR⟩ 1 ⟨q.tail, dAfter q d, q :: VR⟩ :=
                IterSteps.step _ _ _ 0 hmark (IterSteps.refl _)
              exact (hst1.trans (hst2.trans hend)).cast_n (by omega)
            · intro p hp
              rcases List.mem_cons.mp hp with rfl | hp2
              · exact Or.inr (List.suffix_refl p)
              · rcases hsubVR p hp2 with h | h | h
                · exact Or.inl h
                · exact Or.inr ((List.suffix_cons Dir.L q).trans h)
                · exact Or.inr ((List.suffix_cons Dir.R q).trans h)
            · intro p hp
              exact List.mem_cons_of_mem _ (hpres2 p (hpres1 p hp))
          · intro hbad
            rw [hvEq, hdOk, Bool.true_and] at hbad
            by_cases hl : childOkB maxTreeDepth columnNamesList nameOf d v l = true
            · have hr : childOkB maxTreeDepth columnNamesList nameOf d v r = false := by
                rw [hl, Bool.true_and] at hbad
                exact hbad
              obtain ⟨n1, VL, hst1, hb1, hdone1, hsub1, hpres1⟩ := phaseL.1 hl
              obtain ⟨n2, s2, e, hst2, hexit, hb2, hshape⟩ :=
                (phaseR VL hdone1 hsub1 hpres1).2 hr
              exact ⟨n1 + n2, s2, e, hst1.trans hst2, hexit, by omega, hshape⟩
            · have hl2 : childOkB maxTreeDepth columnNamesList nameOf d v l = false := by
                cases h2 : childOkB maxTreeDepth columnNamesList nameOf d v l with
                | true => exact absurd h2 hl
                | false => rfl
              obtain ⟨n1, s2, e, hst1, hexit, hb1, hshape⟩ := phaseL.2 hl2
              exact ⟨n1, s2, e, hst1, hexit, by omega, hshape⟩
        · have hdOk := depthOkNode_true hdepth
          have hnoL : ¬ ((ty = NodeType.Operator ∨ ty = NodeType.UnaryOperator) ∧
              l.isSome ∧ ¬ (Dir.L :: q) ∈ V) := fun hcontra => hop hcontra.1
          have hnoR : ¬ ((ty = NodeType.Operator ∨ ty = NodeType.UnaryOperator) ∧
              r.isSome ∧ ¬ (Dir.R :: q) ∈ V) := fun hcontra => hop hcontra.1
          have hty2 : ty = NodeType.LeftOperand ∨ ty = NodeType.RightOperand := by
            cases ty
            · exact absurd (Or.inl rfl) hop
            · exact absurd (Or.inr rfl) hop
            · exact Or.inl rfl
            · exact Or.inr rfl
          have hgoodrun : ∀ (hnoCol : ¬ (ty = NodeType.LeftOperand ∧
              parentValueAt t q ≠ some "concat" ∧
              ¬ resolveColumn nameOf v ∈ columnNamesList)),
              ∃ (n : Nat) (V2 : List Pos),
                IterSteps (valStep t maxTreeDepth columnNamesList nameOf) ⟨q, d, V⟩ n
                  ⟨q.tail, dAfter q d, V2⟩ ∧
                n + 1 ≤ 2 * (Node.node ty v l r).size ∧ q ∈ V2 ∧
                (∀ p ∈ V2, p ∈ V ∨ q <:+ p) ∧ (∀ p ∈ V, p ∈ V2) := by
            intro hnoCol
            have hmark := valStep_mark t maxTreeDepth columnNamesList nameOf ty v l r q d V
              hq hqV hdepth hnoL hnoR hnoCol
            refine ⟨1, q :: V, IterSteps.step _ _ _ 0 hmark (IterSteps.refl _), ?_, by simp,
              ?_, ?_⟩
            · have := node_size_pos (Node.node ty v l r)
              omega
            · intro p hp
              rcases List.mem_cons.mp hp with rfl | hp2
              · exact Or.inr (List.suffix_refl p)
              · exact Or.inl hp2
            · intro p hp
              exact List.mem_cons_of_mem _ hp
          rcases hty2 with rfl | rfl
          · by_cases hcc : parentValueAt t q ≠ some "concat" ∧
                ¬ resolveColumn nameOf v ∈ columnNamesList
            · have hstep := valStep_colError t maxTreeDepth columnNamesList nameOf v l r q d V
                hq hqV hdepth hcc.1 hcc.2
              have hbad : validOkB maxTreeDepth columnNamesList nameOf
                  (.node NodeType.LeftOperand v l r) d (parentValueAt t q) = false := by
                rw [validOkB_leftOperand, if_pos hcc.1]
                simp [hcc.2]
              constructor
              · intro hok2
                rw [hok2] at hbad
                cases hbad
              · intro _
                refine ⟨0, ⟨q, d, V⟩, colMsg (resolveColumn nameOf v), IterSteps.refl _, hstep,
                  ?_, Or.inr ⟨resolveColumn nameOf v, hcc.2, rfl⟩⟩
                have := node_size_pos (Node.node NodeType.LeftOperand v l r)
                omega
            · have hgood : validOkB maxTreeDepth columnNamesList nameOf
                  (.node NodeType.LeftOperand v l r) d (parentValueAt t q) = true := by
                rw [validOkB_leftOperand, hdOk, Bool.true_and]
                by_cases hpv : parentValueAt t q ≠ some "concat"
                · rw [if_pos hpv]
                  have hin : resolveColumn nameOf v ∈ columnNamesList := by
                    by_contra hno
                    exact hcc ⟨hpv, hno⟩
                  simp [hin]
                · rw [if_neg hpv]
              constructor
              · intro _
                exact hgoodrun (fun hcontra => hcc ⟨hcontra.2.1, hcontra.2.2⟩)
              · intro hbad2
                rw [hgood] at hbad2
                cases hbad2
          · have hgood : validOkB maxTreeDepth columnNamesList nameOf
                (.node NodeType.RightOperand v l r) d (parentValueAt t q) = true := by
              rw [validOkB_rightOperand]
              exact hdOk
            constructor
            · intro _
              exact hgoodrun (fun hcontra => by cases hcontra.1)
            · intro hbad2
              rw [hgood] at hbad2
              cases hbad2

/-- The two possible outcomes of `validateQuery`: a nil result exactly on
clean trees, otherwise an error of the documented shape; the fuel never runs
out. -/
theorem validateQuery_cases (t : Node) (maxTreeDepth : Int) (columnNamesList : List String)
    (nameOf : String → String) :
    (validOkB maxTreeDepth columnNamesList nameOf t 0 none = true ∧
      validateQuery t maxTreeDepth columnNamesList nameOf = some none) ∨
    (validOkB maxTreeDepth columnNamesList nameOf t 0 none = false ∧
      ∃ e, validateQuery t maxTreeDepth columnNamesList nameOf = some (some e) ∧
        errShape maxTreeDepth columnNamesList e) := by
  have hsim := val_sim t maxTreeDepth columnNamesList nameOf t.size t (le_refl _) [] 0 []
    rfl (by simp)
  simp only [ValConcl] at hsim
  have hpv : parentValueAt t [] = none := rfl
  rw [hpv] at hsim
  by_cases hok : validOkB maxTreeDepth columnNamesList nameOf t 0 none = true
  · left
    refine ⟨hok, ?_⟩
    obtain ⟨n, V2, hsteps, hb, hqin, -, -⟩ := hsim.1 hok
    simp only [List.tail_nil, dAfter] at hsteps
    have hrun := iterRun_of_steps hsteps (2 * t.size + 2 - n)
    have hn : n + (2 * t.size + 2 - n) = 2 * t.size + 2 := by omega
    rw [hn] at hrun
    obtain ⟨k, hk⟩ : ∃ k, 2 * t.size + 2 - n = k + 1 := ⟨2 * t.size + 1 - n, by omega⟩
    have hexit := valStep_visited t maxTreeDepth columnNamesList nameOf [] 0 V2 hqin
    have hv : validateQuery t maxTreeDepth columnNamesList nameOf
        = iterRun (valStep t maxTreeDepth columnNamesList nameOf) (2 * t.size + 2)
          ⟨[], 0, []⟩ := rfl
    rw [hv, hrun, hk]
    simp only [iterRun, hexit]
  · right
    have hokf : validOkB maxTreeDepth columnNamesList nameOf t 0 none = false := by
      cases h : validOkB maxTreeDepth columnNamesList nameOf t 0 none with
      | true => exact absurd h hok
      | false => rfl
    refine ⟨hokf, ?_⟩
    obtain ⟨n, s2, e, hsteps, hexit, hb, hshape⟩ := hsim.2 hokf
    refine ⟨e, ?_, hshape⟩
    have hrun := iterRun_of_steps hsteps (2 * t.size + 2 - n)
    have hn : n + (2 * t.size + 2 - n) = 2 * t.size + 2 := by omega
    rw [hn] at hrun
    obtain ⟨k, hk⟩ : ∃ k, 2 * t.size + 2 - n = k + 1 := ⟨2 * t.size + 1 - n, by omega⟩
    have hv : validateQuery t maxTreeDepth columnNamesList nameOf
        = iterRun (valStep t maxTreeDepth columnNamesList nameOf) (2 * t.size + 2)
          ⟨[], 0, []⟩ := rfl
    rw [hv, hrun, hk]
    simp only [iterRun, hexit]

/-- C5: `validateQuery` returns nil exactly when, along its traversal, the
tracked depth never exceeds `maxTreeDepth` (with `maxTreeDepth = 0`, or any
non-positive bound, disabling the depth check — see `depthOkNode`) and every
`LeftOperand` whose parent is not `concat` resolves, through the naming
strategy and the leftmost navigation segment, to a member of the column list
(`validOkB` is exactly that specification); on failure it returns the message
`maximum query complexity exceeded: <depth> > <max>` or
`unknown column name '<column>'` respectively.  The hypothesis on the root
marks the domain on which the embedding is faithful: on a bare-operand root
the Go code would dereference a nil parent pointer, and such trees never
reach the validator. -/
theorem C5_validateQuery_iff (t : Node) (maxTreeDepth : Int) (columnNamesList : List String)
    (nameOf : String → String) (hroot : t.type ≠ NodeType.LeftOperand) :
    (validateQuery t maxTreeDepth columnNamesList nameOf = some none ↔
      validOkB maxTreeDepth columnNamesList nameOf t 0 none = true) ∧
    (∀ e, validateQuery t maxTreeDepth columnNamesList nameOf = some (some e) →
      (∃ dd : Int, maxTreeDepth > 0 ∧ dd > maxTreeDepth ∧ e = depthMsg dd maxTreeDepth) ∨
      (∃ cn, ¬ cn ∈ columnNamesList ∧ e = colMsg cn)) := by
  rcases validateQuery_cases t maxTreeDepth columnNamesList nameOf with
    ⟨hok, hval⟩ | ⟨hbad, e, hval, hshape⟩
  · refine ⟨⟨fun _ => hok, fun _ => hval⟩, ?_⟩
    intro e2 he2
    rw [hval] at he2
    simp at he2
  · refine ⟨⟨?_, ?_⟩, ?_⟩
    · intro h
      rw [hval] at h
      simp at h
    · intro h
      rw [h] at hbad
      cases hbad
    · intro e2 he2
      rw [hval] at he2
      simp only [Option.some.injEq] at he2
      rw [← he2]
      exact hshape

/-- Witness for C5: `name eq 'test'` with known column `name` and depth cap 2
validates to nil. -/
theorem C5_validateQuery_iff_witness :
    exEq.type ≠ NodeType.LeftOperand ∧
    ((validateQuery exEq 2 ["name"] idTrans = some none ↔
      validOkB 2 ["name"] idTrans exEq 0 none = true) ∧
    (∀ e, validateQuery exEq 2 ["name"] idTrans = some (some e) →
      (∃ dd : Int, (2 : Int) > 0 ∧ dd > 2 ∧ e = depthMsg dd 2) ∨
      (∃ cn, ¬ cn ∈ ["name"] ∧ e = colMsg cn))) :=
  ⟨by decide, C5_validateQuery_iff exEq 2 ["name"] idTrans (by decide)⟩

/-- C10: `validateQuery` terminates on every finite AST; in the embedding the
node ids are tree positions (unique by construction) and the traversal
provably exits within the fuel `2 * size + 2`.  The hypothesis on the root
excludes the bare-operand tree on which the Go code would dereference a nil
parent pointer rather than loop. -/
theorem C10_validateQuery_terminates (t : Node) (maxTreeDepth : Int)
    (columnNamesList : List String) (nameOf : String → String)
    (hroot : t.type ≠ NodeType.LeftOperand) :
    (validateQuery t maxTreeDepth columnNamesList nameOf).isSome = true := by
  rcases validateQuery_cases t maxTreeDepth columnNamesList nameOf with
    ⟨-, hval⟩ | ⟨-, e, hval, -⟩ <;> simp [hval]

/- ### C2: De Morgan duality of the `not` build on accepted navigation-free
subexpressions -/

theorem revChars_append (a b : String) :
    revChars (a ++ b) = revChars b ++ revChars a := by
  simp [revChars, String.data_append]

theorem mk_revChars_reverse (lhs : String) :
    (String.mk ((revChars lhs).reverse)) = lhs := by
  simp only [revChars, List.reverse_reverse]

theorem parseRev_noteq (rl : List Char) :
    parseFragRev ('?' :: ' ' :: '=' :: '!' :: ' ' :: rl) = some (.one, rl) := by
  simp [parseFragRev, List.isPrefixOf, revChars]

theorem parseRev_geFrag (rl : List Char) :
    parseFragRev ('?' :: ' ' :: '=' :: '>' :: ' ' :: rl) = some (.oge, rl) := by
  simp [parseFragRev, List.isPrefixOf, revChars]

theorem parseRev_leFrag (rl : List Char) :
    parseFragRev ('?' :: ' ' :: '=' :: '<' :: ' ' :: rl) = some (.ole, rl) := by
  simp [parseFragRev, List.isPrefixOf, revChars]

theorem parseRev_eqFrag (rl : List Char) :
    parseFragRev ('?' :: ' ' :: '=' :: ' ' :: rl) = some (.oeq, rl) := by
  simp [parseFragRev, List.isPrefixOf, revChars]

theorem parseRev_gtFrag (rl : List Char) :
    parseFragRev ('?' :: ' ' :: '>' :: ' ' :: rl) = some (.ogt, rl) := by
  simp [parseFragRev, List.isPrefixOf, revChars]

theorem parseRev_ltFrag (rl : List Char) :
    parseFragRev ('?' :: ' ' :: '<' :: ' ' :: rl) = some (.olt, rl) := by
  simp [parseFragRev, List.isPrefixOf, revChars]

theorem parseRev_notlike (rl : List Char) :
    parseFragRev ('?' :: ' ' :: 'E' :: 'K' :: 'I' :: 'L' :: ' ' :: 'T' :: 'O' :: 'N' :: ' ' :: rl)
      = some (.onotlike false, rl) := by
  simp [parseFragRev, List.isPrefixOf, revChars]

theorem parseRev_notlikeEsc (rl : List Char) :
    parseFragRev ('\'' :: '\\' :: '\'' :: ' ' :: 'E' :: 'P' :: 'A' :: 'C' :: 'S' :: 'E' :: ' '
        :: '?' :: ' ' :: 'E' :: 'K' :: 'I' :: 'L' :: ' ' :: 'T' :: 'O' :: 'N' :: ' ' :: rl)
      = some (.onotlike true, rl) := by
  simp [parseFragRev, List.isPrefixOf, revChars]

/-- With a left-hand side that does not end in `" NOT"`, the plain `LIKE`
fragment is recognized as such (and not as a `NOT LIKE` fragment). -/
theorem parseRev_like (rl : List Char)
    (h : (List.isPrefixOf ['T', 'O', 'N', ' '] rl) = false) :
    parseFragRev ('?' :: ' ' :: 'E' :: 'K' :: 'I' :: 'L' :: ' ' :: rl)
      = some (.olike false, rl) := by
  simp [parseFragRev, List.isPrefixOf, revChars, h]

/-- Same for the escaped `LIKE` fragment. -/
theorem parseRev_likeEsc (rl : List Char)
    (h : (List.isPrefixOf ['T', 'O', 'N', ' '] rl) = false) :
    parseFragRev ('\'' :: '\\' :: '\'' :: ' ' :: 'E' :: 'P' :: 'A' :: 'C' :: 'S' :: 'E' :: ' '
        :: '?' :: ' ' :: 'E' :: 'K' :: 'I' :: 'L' :: ' ' :: rl)
      = some (.olike true, rl) := by
  simp [parseFragRev, List.isPrefixOf, revChars, h]

theorem str_append_nil (s : String) : s ++ "" = s := by
  apply strExt
  simp [String.data_append]

theorem evalFrag_parse_cmp (row : String → GVal) (like : GVal → String → Bool)
    (sql lhs : String) (arg : GVal) (op : SqlOp)
    (hop : op = .oeq ∨ op = .one ∨ op = .olt ∨ op = .ole ∨ op = .ogt ∨ op = .oge)
    (h : parseFragRev (revChars sql) = some (op, revChars lhs)) :
    evalFrag row like sql arg = evalCmp op (row lhs) arg := by
  rcases hop with rfl | rfl | rfl | rfl | rfl | rfl <;>
    · simp only [evalFrag, h]
      exact congrArg (fun s => evalCmp _ (row s) arg) (mk_revChars_reverse lhs)

theorem evalFrag_parse_like (row : String → GVal) (like : GVal → String → Bool)
    (sql lhs s : String) (esc : Bool)
    (h : parseFragRev (revChars sql) = some (.olike esc, revChars lhs)) :
    evalFrag row like sql (.gstr s) = like (row lhs) s := by
  simp only [evalFrag, h]
  exact congrArg (fun x => like (row x) s) (mk_revChars_reverse lhs)

theorem evalFrag_parse_notlike (row : String → GVal) (like : GVal → String → Bool)
    (sql lhs s : String) (esc : Bool)
    (h : parseFragRev (revChars sql) = some (.onotlike esc, revChars lhs)) :
    evalFrag row like sql (.gstr s) = !(like (row lhs) s) := by
  simp only [evalFrag, h]
  exact congrArg (fun x => !(like (row x) s)) (mk_revChars_reverse lhs)

/-- The comparison fragment of the reversed operator table evaluates to the
negation of the fragment of the forward table, over the same left-hand
expression and bound value. -/
theorem evalFrag_cmp_dual (row : String → GVal) (like : GVal → String → Bool)
    (v lhs : String) (arg : GVal) (hv : v ∈ cmpOps) :
    evalFrag row like (lhs ++ " " ++ lookupD operatorTranslationReversed v ++ " ?") arg
      = !(evalFrag row like (lhs ++ " " ++ lookupD operatorTranslation v ++ " ?") arg) := by
  simp only [cmpOps, List.mem_cons, List.not_mem_nil, or_false] at hv
  rcases hv with rfl | rfl | rfl | rfl | rfl | rfl
  · rw [show lookupD operatorTranslation "eq" = "=" by decide,
      show lookupD operatorTranslationReversed "eq" = "!=" by decide]
    have hrevP : revChars (lhs ++ " " ++ "=" ++ " ?")
        = '?' :: ' ' :: '=' :: ' ' :: revChars lhs := by
      simp only [revChars_append]
      rfl
    have hrevN : revChars (lhs ++ " " ++ "!=" ++ " ?")
        = '?' :: ' ' :: '=' :: '!' :: ' ' :: revChars lhs := by
      simp only [revChars_append]
      rfl
    rw [evalFrag_parse_cmp row like _ lhs arg .one (by simp)
          (by rw [hrevN]; exact parseRev_noteq _),
        evalFrag_parse_cmp row like _ lhs arg .oeq (by simp)
          (by rw [hrevP]; exact parseRev_eqFrag _)]
    simp [evalCmp]
  · rw [show lookupD operatorTranslation "ne" = "!=" by decide,
      show lookupD operatorTranslationReversed "ne" = "=" by decide]
    have hrevP : revChars (lhs ++ " " ++ "!=" ++ " ?")
        = '?' :: ' ' :: '=' :: '!' :: ' ' :: revChars lhs := by
      simp only [revChars_append]
      rfl
    have hrevN : revChars (lhs ++ " " ++ "=" ++ " ?")
        = '?' :: ' ' :: '=' :: ' ' :: revChars lhs := by
      simp only [revChars_append]
      rfl
    rw [evalFrag_parse_cmp row like _ lhs arg .oeq (by simp)
          (by rw [hrevN]; exact parseRev_eqFrag _),
        evalFrag_parse_cmp row like _ lhs arg .one (by simp)
          (by rw [hrevP]; exact parseRev_noteq _)]
    simp [evalCmp]
  · rw [show lookupD operatorTranslation "lt" = "<" by decide,
      show lookupD operatorTranslationReversed "lt" = ">=" by decide]
    have hrevP : revChars (lhs ++ " " ++ "<" ++ " ?")
        = '?' :: ' ' :: '<' :: ' ' :: revChars lhs := by
      simp only [revChars_append]
      rfl
    have hrevN : revChars (lhs ++ " " ++ ">=" ++ " ?")
        = '?' :: ' ' :: '=' :: '>' :: ' ' :: revChars lhs := by
      simp only [revChars_append]
      rfl
    rw [evalFrag_parse_cmp row like _ lhs arg .oge (by simp)
          (by rw [hrevN]; exact parseRev_geFrag _),
        evalFrag_parse_cmp row like _ lhs arg .olt (by simp)
          (by rw [hrevP]; exact parseRev_ltFrag _)]
    simp [evalCmp]
  · rw [show lookupD operatorTranslation "le" = "<=" by decide,
      show lookupD operatorTranslationReversed "le" = ">" by decide]
    have hrevP : revChars (lhs ++ " " ++ "<=" ++ " ?")
        = '?' :: ' ' :: '=' :: '<' :: ' ' :: revChars lhs := by
      simp only [revChars_append]
      rfl
    have hrevN : revChars (lhs ++ " " ++ ">" ++ " ?")
        = '?' :: ' ' :: '>' :: ' ' :: revChars lhs := by
      simp only [revChars_append]
      rfl
    rw [evalFrag_parse_cmp row like _ lhs arg .ogt (by simp)
          (by rw [hrevN]; exact parseRev_gtFrag _),
        evalFrag_parse_cmp row like _ lhs arg .ole (by simp)
          (by rw [hrevP]; exact parseRev_leFrag _)]
    simp [evalCmp]
  · rw [show lookupD operatorTranslation "gt" = ">" by decide,
      show lookupD operatorTranslationReversed "gt" = "<=" by decide]
    have hrevP : revChars (lhs ++ " " ++ ">" ++ " ?")
        = '?' :: ' ' :: '>' :: ' ' :: revChars lhs := by
      simp only [revChars_append]
      rfl
    have hrevN : revChars (lhs ++ " " ++ "<=" ++ " ?")
        = '?' :: ' ' :: '=' :: '<' :: ' ' :: revChars lhs := by
      simp only [revChars_append]
      rfl
    rw [evalFrag_parse_cmp row like _ lhs arg .ole (by simp)
          (by rw [hrevN]; exact parseRev_leFrag _),
        evalFrag_parse_cmp row like _ lhs arg .ogt (by simp)
          (by rw [hrevP]; exact parseRev_gtFrag _)]
    simp [evalCmp]
  · rw [show lookupD operatorTranslation "ge" = ">=" by decide,
      show lookupD operatorTranslationReversed "ge" = "<" by decide]
    have hrevP : revChars (lhs ++ " " ++ ">=" ++ " ?")
        = '?' :: ' ' :: '=' :: '>' :: ' ' :: revChars lhs := by
      simp only [revChars_append]
      rfl
    have hrevN : revChars (lhs ++ " " ++ "<" ++ " ?")
        = '?' :: ' ' :: '<' :: ' ' :: revChars lhs := by
      simp only [revChars_append]
      rfl
    rw [evalFrag_parse_cmp row like _ lhs arg .olt (by simp)
          (by rw [hrevN]; exact parseRev_ltFrag _),
        evalFrag_parse_cmp row like _ lhs arg .oge (by simp)
          (by rw [hrevP]; exact parseRev_geFrag _)]
    simp [evalCmp]

/-- The `NOT LIKE` fragment evaluates to the negation of the `LIKE` fragment,
for any escape setting, as long as the left-hand expression does not end in
`" NOT"`. -/
theorem evalFrag_like_dual (row : String → GVal) (like : GVal → String → Bool)
    (lhs s : String) (esc : Bool) (hsafe : lhsSafeB lhs = true) :
    evalFrag row like
        (sprintf1 ("%s NOT LIKE ?" ++ (if esc then " ESCAPE '\\'" else "")) lhs) (.gstr s)
      = !(evalFrag row like
          (sprintf1 ("%s LIKE ?" ++ (if esc then " ESCAPE '\\'" else "")) lhs) (.gstr s)) := by
  have hsafe' : (List.isPrefixOf ['T', 'O', 'N', ' '] (revChars lhs)) = false := by
    simpa [lhsSafeB, revChars] using hsafe
  cases esc
  · rw [show ((if (false : Bool) then (" ESCAPE '\\'" : String) else "")) = "" from rfl,
        str_append_nil, str_append_nil]
    rw [sprintf1_notlike, sprintf1_like]
    have hrevN : revChars (lhs ++ " NOT LIKE ?")
        = '?' :: ' ' :: 'E' :: 'K' :: 'I' :: 'L' :: ' '
            :: 'T' :: 'O' :: 'N' :: ' ' :: revChars lhs := by
      simp only [revChars_append]
      rfl
    have hrevP : revChars (lhs ++ " LIKE ?")
        = '?' :: ' ' :: 'E' :: 'K' :: 'I' :: 'L' :: ' ' :: revChars lhs := by
      simp only [revChars_append]
      rfl
    rw [evalFrag_parse_notlike row like _ lhs s false
          (by rw [hrevN]; exact parseRev_notlike _),
        evalFrag_parse_like row like _ lhs s false
          (by rw [hrevP]; exact parseRev_like _ hsafe')]
  · rw [show ((if (true : Bool) then (" ESCAPE '\\'" : String) else ""))
          = " ESCAPE '\\'" from rfl]
    rw [sprintf1_notlike_esc, sprintf1_like_esc]
    have hrevN : revChars (lhs ++ " NOT LIKE ?" ++ " ESCAPE '\\'")
        = '\'' :: '\\' :: '\'' :: ' ' :: 'E' :: 'P' :: 'A' :: 'C' :: 'S' :: 'E' :: ' '
            :: '?' :: ' ' :: 'E' :: 'K' :: 'I' :: 'L' :: ' '
            :: 'T' :: 'O' :: 'N' :: ' ' :: revChars lhs := by
      simp only [revChars_append]
      rfl
    have hrevP : revChars (lhs ++ " LIKE ?" ++ " ESCAPE '\\'")
        = '\'' :: '\\' :: '\'' :: ' ' :: 'E' :: 'P' :: 'A' :: 'C' :: 'S' :: 'E' :: ' '
            :: '?' :: ' ' :: 'E' :: 'K' :: 'I' :: 'L' :: ' ' :: revChars lhs := by
      simp only [revChars_append]
      rfl
    rw [evalFrag_parse_notlike row like _ lhs s true
          (by rw [hrevN]; exact parseRev_notlikeEsc _),
        evalFrag_parse_like row like _ lhs s true
          (by rw [hrevP]; exact parseRev_likeEsc _ hsafe')]

/-- The comparison branch without the `RightOperand` assumption: any right
child that is neither a unary operator nor `concat` yields the fragment, its
literal taken as empty when the child is not a `RightOperand`. -/
theorem buildGormQuery_cmp_frag_gen (databaseType : DbType) (colT : String → String)
    (db : Builder) (opT gqT gqRevG : List (String × String)) (b : Bool)
    (v : String) (lc rc : Node)
    (hv : v ∈ cmpOps)
    (hnav : strHasChar lc.value '/' = false)
    (hru : rc.type ≠ NodeType.UnaryOperator)
    (hrc : rc.value ≠ "concat") :
    buildGormQuery (.node NodeType.Operator v (some lc) (some rc)) db databaseType
      opT gqT gqRevG colT b
    = (whereC db (some (.frag
        (emitLeftOperand databaseType colT lc ++ " " ++ lookupD opT v ++ " ?")
        (match atoiQ (if rc.type = NodeType.RightOperand then removeAll '\'' rc.value else "")
         with
         | some n => GVal.gint n
         | none => GVal.gstr
             (if rc.type = NodeType.RightOperand then removeAll '\'' rc.value else "")))),
       none) := by
  simp only [cmpOps, List.mem_cons, List.not_mem_nil, or_false] at hv
  rcases hv with rfl | rfl | rfl | rfl | rfl | rfl <;>
    · simp only [buildGormQuery, hru, hrc, hnav]
      simp
      cases atoiQ (if rc.type = NodeType.RightOperand then removeAll '\'' rc.value else "") <;>
        rfl

/-- The `and` branch: the children are rebuilt on clean sessions and joined
with `Where`/`Where`, or `Where`/`Or` in reversed mode; child errors are
dropped. -/
theorem buildGormQuery_andNode (databaseType : DbType) (colT : String → String)
    (db : Builder) (opT gqT gqRevG : List (String × String)) (b : Bool) (lc rc : Node) :
    buildGormQuery (.node NodeType.Operator "and" (some lc) (some rc)) db databaseType
      opT gqT gqRevG colT b
    = (if b then
        orC (whereC db (buildGormQuery lc none databaseType opT gqT gqRevG colT b).1)
          (buildGormQuery rc none databaseType opT gqT gqRevG colT b).1
       else
        whereC (whereC db (buildGormQuery lc none databaseType opT gqT gqRevG colT b).1)
          (buildGormQuery rc none databaseType opT gqT gqRevG colT b).1,
       none) := by
  cases b <;> simp [buildGormQuery]

/-- The `or` branch, dually. -/
theorem buildGormQuery_orNode (databaseType : DbType) (colT : String → String)
    (db : Builder) (opT gqT gqRevG : List (String × String)) (b : Bool) (lc rc : Node) :
    buildGormQuery (.node NodeType.Operator "or" (some lc) (some rc)) db databaseType
      opT gqT gqRevG colT b
    = (if b then
        whereC (whereC db (buildGormQuery lc none databaseType opT gqT gqRevG colT b).1)
          (buildGormQuery rc none databaseType opT gqT gqRevG colT b).1
       else
        orC (whereC db (buildGormQuery lc none databaseType opT gqT gqRevG colT b).1)
          (buildGormQuery rc none databaseType opT gqT gqRevG colT b).1,
       none) := by
  cases b <;> simp [buildGormQuery]

/-- De Morgan duality of the emitter over accepted `not`-free
navigation-free subexpressions: the reversed-mode build returns no error and
a single condition whose evaluation is the pointwise negation of the
forward-mode build's condition.  The nested-map (`gqP`/`gqN`) and reversed
gormqonvert (`grP`/`grN`) tables are irrelevant on this class of trees. -/
theorem build_duality (databaseType : DbType) (colT : String → String)
    (row : String → GVal) (like : GVal → String → Bool)
    (msat : List (String × FVal) → Bool) :
    ∀ N : Nat, ∀ E : Node, E.size ≤ N →
      goodE databaseType colT E = true →
      ∀ gqP gqN grP grN : List (String × String),
      ∃ cP cN : Cond,
        buildGormQuery E none databaseType operatorTranslation gqP grP colT false
          = (some cP, none) ∧
        buildGormQuery E none databaseType operatorTranslationReversed gqN grN colT true
          = (some cN, none) ∧
        evalCond row like msat cN = !(evalCond row like msat cP) := by
  intro N
  induction N with
  | zero =>
      intro E hsz
      exact absurd (le_trans (node_size_pos E) hsz) (by omega)
  | succ M ih =>
      intro E hsz hgood gqP gqN grP grN
      obtain ⟨ty, v, l, r⟩ := E
      cases ty with
      | LeftOperand => simp [goodE] at hgood
      | RightOperand => simp [goodE] at hgood
      | UnaryOperator => simp [goodE] at hgood
      | Operator =>
        cases l with
        | none => simp [goodE] at hgood
        | some lc =>
        cases r with
        | none => simp [goodE] at hgood
        | some rc =>
        simp only [goodE] at hgood
        have hszl : lc.size ≤ M := by
          have := size_left_lt NodeType.Operator v lc (some rc)
          have h2 : (Node.node NodeType.Operator v (some lc) (some rc)).size ≤ M + 1 := hsz
          omega
        have hszr : rc.size ≤ M := by
          have := size_right_lt NodeType.Operator v (some lc) rc
          have h2 : (Node.node NodeType.Operator v (some lc) (some rc)).size ≤ M + 1 := hsz
          omega
        by_cases hao : v = "and" ∨ v = "or"
        · rw [if_pos hao] at hgood
          rw [Bool.and_eq_true] at hgood
          obtain ⟨cPl, cNl, hPl, hNl, hDl⟩ := ih lc hszl hgood.1 gqP gqN grP grN
          obtain ⟨cPr, cNr, hPr, hNr, hDr⟩ := ih rc hszr hgood.2 gqP gqN grP grN
          rcases hao with rfl | rfl
          · refine ⟨.cand cPl cPr, .cor cNl cNr, ?_, ?_, ?_⟩
            · rw [buildGormQuery_andNode, hPl, hPr]
              rfl
            · rw [buildGormQuery_andNode, hNl, hNr]
              rfl
            · simp only [evalCond, hDl, hDr]
              simp [Bool.not_and]
          · refine ⟨.cor cPl cPr, .cand cNl cNr, ?_, ?_, ?_⟩
            · rw [buildGormQuery_orNode, hPl, hPr]
              rfl
            · rw [buildGormQuery_orNode, hNl, hNr]
              rfl
            · simp only [evalCond, hDl, hDr]
              simp [Bool.not_or]
        · rw [if_neg hao] at hgood
          by_cases hcm : v ∈ cmpOps
          · rw [if_pos hcm] at hgood
            simp only [Bool.and_eq_true, Bool.not_eq_true', decide_eq_false_iff_not] at hgood
            obtain ⟨⟨hnav, hru⟩, hrc⟩ := hgood
            have hP := buildGormQuery_cmp_frag_gen databaseType colT none
              operatorTranslation gqP grP false v lc rc hcm hnav hru hrc
            have hN := buildGormQuery_cmp_frag_gen databaseType colT none
              operatorTranslationReversed gqN grN true v lc rc hcm hnav hru hrc
            refine ⟨_, _, hP, hN, ?_⟩
            simp only [evalCond]
            exact evalFrag_cmp_dual row like v
              (emitLeftOperand databaseType colT lc) _ hcm
          · by_cases hst : v ∈ strOps
            · rw [if_neg hcm, if_pos hst] at hgood
              simp only [Bool.and_eq_true, Bool.not_eq_true'] at hgood
              obtain ⟨hnav, hsafe⟩ := hgood
              have hP := buildGormQuery_str_frag databaseType colT none
                operatorTranslation gqP grP false v lc rc hst hnav
              have hN := buildGormQuery_str_frag databaseType colT none
                operatorTranslationReversed gqN grN true v lc rc hst hnav
              refine ⟨_, _, hP, hN, ?_⟩
              simp only [evalCond]
              exact evalFrag_like_dual row like
                (emitLeftOperand databaseType colT lc) _
                (strHasChar rc.value '%') hsafe
            · rw [if_neg hcm, if_neg hst] at hgood
              cases hgood

/-- C2 (amended): building `not(E)` uses the reversed operator tables and
flips `and`/`or`, and for every accepted `not`-free subexpression `E` in
which no comparison or string predicate has a navigation-path left operand
(the class `goodE`), the condition emitted for `not(E)` evaluates, against
every row valuation, `LIKE` relation and nested-map interpretation, to the
boolean negation of the condition emitted for `E`; both builds return a nil
error.  (For navigation-path comparisons the correspondence fails, see
`C2_deMorgan_counterexample`.) -/
theorem C2_deMorgan_amended (databaseType : DbType) (colT : String → String)
    (E : Node) (hgood : goodE databaseType colT E = true)
    (row : String → GVal) (like : GVal → String → Bool)
    (msat : List (String × FVal) → Bool) :
    (buildGormQuery (.node NodeType.UnaryOperator "not" (some E) none) none databaseType
        operatorTranslation gormqonvertTranslation gormqonvertTranslationReversed colT
        false).2 = none ∧
    (buildGormQuery E none databaseType operatorTranslation gormqonvertTranslation
        gormqonvertTranslationReversed colT false).2 = none ∧
    evalBuilder row like msat
        (buildGormQuery (.node NodeType.UnaryOperator "not" (some E) none) none databaseType
          operatorTranslation gormqonvertTranslation gormqonvertTranslationReversed colT
          false).1
      = !(evalBuilder row like msat
          (buildGormQuery E none databaseType operatorTranslation gormqonvertTranslation
            gormqonvertTranslationReversed colT false).1) := by
  obtain ⟨cP, cN, hP, hN, hD⟩ := build_duality databaseType colT row like msat E.size E
    (le_refl _) hgood gormqonvertTranslation gormqonvertTranslationReversed
    gormqonvertTranslationReversed gormqonvertTranslationReversed
  have hnot : buildGormQuery (.node NodeType.UnaryOperator "not" (some E) none) none
      databaseType operatorTranslation gormqonvertTranslation gormqonvertTranslationReversed
      colT false
      = buildGormQuery E none databaseType operatorTranslationReversed
          gormqonvertTranslationReversed gormqonvertTranslationReversed colT true := by
    simp [buildGormQuery]
  rw [hnot, hN, hP]
  exact ⟨rfl, rfl, by simp [evalBuilder, hD]⟩

/-- A concrete row valuation for the C2 witness. -/
def row0 : String → GVal := fun _ => GVal.gint 7

/-- A concrete `LIKE` relation for the C2 witness. -/
def like0 : GVal → String → Bool := fun a p => decide (a = GVal.gstr p)

/-- A concrete nested-map interpretation for the C2 witness. -/
def msat0 : List (String × FVal) → Bool := fun _ => true

/-- Witness for C2: `name eq 'test'` is in the accepted class, and
`not(name eq 'test')` builds without error to the negation of its build. -/
theorem C2_deMorgan_amended_witness :
    goodE DbType.SQLite idTrans exEq = true ∧
    ((buildGormQuery (.node NodeType.UnaryOperator "not" (some exEq) none) none DbType.SQLite
        operatorTranslation gormqonvertTranslation gormqonvertTranslationReversed idTrans
        false).2 = none ∧
     (buildGormQuery exEq none DbType.SQLite operatorTranslation gormqonvertTranslation
        gormqonvertTranslationReversed idTrans false).2 = none ∧
     evalBuilder row0 like0 msat0
        (buildGormQuery (.node NodeType.UnaryOperator "not" (some exEq) none) none
          DbType.SQLite operatorTranslation gormqonvertTranslation
          gormqonvertTranslationReversed idTrans false).1
      = !(evalBuilder row0 like0 msat0
          (buildGormQuery exEq none DbType.SQLite operatorTranslation gormqonvertTranslation
            gormqonvertTranslationReversed idTrans false).1)) :=
  ⟨by decide, C2_deMorgan_amended DbType.SQLite idTrans exEq (by decide) row0 like0 msat0⟩

/-- Witness for C10: the validator terminates on `metadata/name eq 'x'`. -/
theorem C10_validateQuery_terminates_witness :
    exNavEq.type ≠ NodeType.LeftOperand ∧
    (validateQuery exNavEq 0 ["metadata"] idTrans).isSome = true :=
  ⟨by decide, C10_validateQuery_terminates exNavEq 0 ["metadata"] idTrans (by decide)⟩

end gormodata
